import Mathlib

/-!
Verification of the rapport chat application's streaming, tool-registry and
agent-loop logic against its natural-language specification.

Python strings are modelled as `List Char`; machine integers do not overflow
in the modelled code paths, so token counters are plain `Nat`.  Fallible
Python code (raising exceptions) is modelled with `Except`.
-/

namespace Rapport

/-- Python `str` modelled as a list of characters. -/
abbrev Str := List Char

/-- The three-valued finish reason enum from `chatgateway/types.py`. -/
inductive FinishReason
  | Stop
  | Length
  | Other
deriving DecidableEq, Repr

/-- JSON values, as produced by Python's `json.loads`.  The parser is
external library code and is abstracted as a function argument where used;
the modelled code never inspects a parsed value's structure — it only passes
values through — so a JSON value is represented opaquely by its source
text. -/
structure JsonV where
  raw : Str
deriving DecidableEq, Repr

/-- Modelled from the spec: `ToolCallMessage{id, name, parameters}` — the
class is imported from `rapport.chatmodel` but its definition is missing from
the provided sources; fields follow spec section 3 and the construction sites
in `view_chat.py` and `chatgateway/anthropic.py`. -/
structure ToolCallMessage where
  id : Str
  name : Str
  parameters : JsonV
deriving DecidableEq, Repr

/-- Modelled from the spec: `ToolResultMessage{id, name, result}` — the class
is imported from `rapport.chatmodel` but its definition is missing from the
provided sources; fields follow spec section 3 and the construction site in
`view_chat.py` (`generate_assistant_message`). -/
structure ToolResultMessage where
  id : Str
  name : Str
  result : Str
deriving DecidableEq, Repr

/-- The tagged union of conversation entries from `chatmodel.py`
(discriminator = `type`). -/
inductive Message
  | systemMessage (message : Str)
  | userMessage (message : Str)
  | assistantMessage (message : Str)
  | includedFile (name ext data : Str)
  | includedImage (name : Str) (path : Str)
  | toolCallMessage (m : ToolCallMessage)
  | toolResultMessage (m : ToolResultMessage)
deriving DecidableEq, Repr

/-- The `role` field of each message class in `chatmodel.py`; the roles of the
tool message classes are modelled from the spec and their use in
`_chat_as_markdown` and the Anthropic projection. -/
def Message.role : Message → Str
  | .systemMessage _ => "system".data
  | .userMessage _ => "user".data
  | .assistantMessage _ => "assistant".data
  | .includedFile _ _ _ => "user".data
  | .includedImage _ _ => "user".data
  | .toolCallMessage _ => "assistant".data
  | .toolResultMessage _ => "user".data

/-- The ephemeral stream unit from `chatgateway/types.py`. -/
structure MessageChunk where
  input_tokens : Option Nat
  output_tokens : Option Nat
  content : Str
  finish_reason : Option FinishReason
  tool_call : Option ToolCallMessage
deriving DecidableEq, Repr

/-! ## `view_chat.py`: chunk post-processing and `stream_model_response` -/

/-- One pass of Python's `str.replace` for a two-character pattern `a b`,
replacing each non-overlapping occurrence (scanning left to right) with `r`. -/
def replace2 (a b : Char) (r : Str) : Str → Str
  | [] => []
  | [c] => [c]
  | c :: d :: rest =>
    if c = a ∧ d = b then r ++ replace2 a b r rest
    else c :: replace2 a b r (d :: rest)

/-- `openai_math_markup` from `view_chat.py`: substitutes the OpenAI latex
fences with the `$$` fences used by streamlit, via four chained
`str.replace` calls. -/
def openai_math_markup (s : Str) : Str :=
  replace2 '\\' ')' "$$".data
    (replace2 '\\' '(' "$$".data
      (replace2 '\\' ']' "$$".data
        (replace2 '\\' '[' "$$".data s)))

/-- `post_process_chunk` from `view_chat.py`. -/
def post_process_chunk (s : Str) : Str :=
  openai_math_markup s

/-- Python `s.endswith("\\")`. -/
def endsWithBackslash (s : Str) : Bool :=
  match s.getLast? with
  | some c => c = '\\'
  | none => false

/-- The chunk-accumulation loop of `stream_model_response` in `view_chat.py`:
given the remaining chunks and the current `chunkier_chunk` accumulator,
return the list of strings the generator yields.  Intermediate yields happen
when the accumulator does not end in a backslash and is longer than 60
characters, and are post-processed; the final accumulator is yielded as-is. -/
def streamGo : List MessageChunk → Str → List Str
  | [], acc => [acc]
  | c :: rest, acc =>
    let acc2 := acc ++ c.content
    if ¬ endsWithBackslash acc2 ∧ 60 < acc2.length
    then post_process_chunk acc2 :: streamGo rest []
    else streamGo rest acc2

/-- The strings yielded by `stream_model_response` for a chunk stream. -/
def streamYields (chunks : List MessageChunk) : List Str :=
  streamGo chunks []

/-- The tool calls accumulated into `tool_acc` by `stream_model_response`:
each chunk with a non-`None` `tool_call` appends it, in arrival order. -/
def toolAcc (chunks : List MessageChunk) : List ToolCallMessage :=
  chunks.filterMap (fun c => c.tool_call)

/-- Concatenation of the `content` fields of a chunk stream, in arrival
order. -/
def contentsConcat (chunks : List MessageChunk) : Str :=
  (chunks.map (fun c => c.content)).flatten

/-- Concatenation of the strings yielded by `stream_model_response`; this is
also the assistant text reassembled by `st.write_stream`. -/
def yieldsConcat (chunks : List MessageChunk) : Str :=
  (streamYields chunks).flatten

/-- Whether `s` contains the two-character pattern `a b` as a substring. -/
def containsPair (a b : Char) : Str → Bool
  | [] => false
  | [_] => false
  | c :: d :: rest => (c = a ∧ d = b : Bool) || containsPair a b (d :: rest)

/-- `s` contains none of the four OpenAI latex fences rewritten by
`openai_math_markup`. -/
def noFence (s : Str) : Bool :=
  !(containsPair '\\' '[' s || containsPair '\\' ']' s ||
    containsPair '\\' '(' s || containsPair '\\' ')' s)

theorem containsPair_append_left (a b : Char) (r : Str) :
    ∀ l : Str, containsPair a b l = true → containsPair a b (l ++ r) = true := by
  intro l
  induction l with
  | nil => intro h; simp [containsPair] at h
  | cons c l ih =>
    intro h
    cases l with
    | nil => simp [containsPair] at h
    | cons d l2 =>
      simp only [containsPair, List.cons_append, Bool.or_eq_true] at h ⊢
      rcases h with h | h
      · exact Or.inl h
      · exact Or.inr (ih h)

theorem containsPair_append_right (a b : Char) (r : Str) :
    ∀ l : Str, containsPair a b r = true → containsPair a b (l ++ r) = true := by
  intro l
  induction l with
  | nil => intro h; simpa using h
  | cons c l ih =>
    intro h
    rcases h2 : l ++ r with _ | ⟨d, rest⟩
    · rcases List.append_eq_nil.mp h2 with ⟨_, hr⟩
      subst hr
      simp [containsPair] at h
    · have h3 : containsPair a b (l ++ r) = true := ih h
      rw [h2] at h3
      simp only [List.cons_append, h2, containsPair, Bool.or_eq_true]
      exact Or.inr h3

theorem noFence_append (l r : Str) (h : noFence (l ++ r) = true) :
    noFence l = true ∧ noFence r = true := by
  simp only [noFence, Bool.not_eq_true', Bool.or_eq_false_iff] at h ⊢
  obtain ⟨⟨⟨h1, h2⟩, h3⟩, h4⟩ := h
  refine ⟨⟨⟨⟨?_, ?_⟩, ?_⟩, ?_⟩, ⟨⟨⟨?_, ?_⟩, ?_⟩, ?_⟩⟩ <;>
    [skip; skip; skip; skip; skip; skip; skip; skip] <;>
    apply Bool.eq_false_iff.mpr <;> intro hc
  · exact Bool.eq_false_iff.mp h1 (containsPair_append_left _ _ r l hc)
  · exact Bool.eq_false_iff.mp h2 (containsPair_append_left _ _ r l hc)
  · exact Bool.eq_false_iff.mp h3 (containsPair_append_left _ _ r l hc)
  · exact Bool.eq_false_iff.mp h4 (containsPair_append_left _ _ r l hc)
  · exact Bool.eq_false_iff.mp h1 (containsPair_append_right _ _ r l hc)
  · exact Bool.eq_false_iff.mp h2 (containsPair_append_right _ _ r l hc)
  · exact Bool.eq_false_iff.mp h3 (containsPair_append_right _ _ r l hc)
  · exact Bool.eq_false_iff.mp h4 (containsPair_append_right _ _ r l hc)

theorem replace2_of_not_contains (a b : Char) (r : Str) :
    ∀ s : Str, containsPair a b s = false → replace2 a b r s = s := by
  intro s
  induction s with
  | nil => intro _; rfl
  | cons c l ih =>
    intro h
    cases l with
    | nil => rfl
    | cons d l2 =>
      simp only [containsPair, Bool.or_eq_false_iff, decide_eq_false_iff_not] at h
      obtain ⟨h1, h2⟩ := h
      simp only [replace2, if_neg h1]
      rw [ih h2]

theorem post_process_of_noFence (s : Str) (h : noFence s = true) :
    post_process_chunk s = s := by
  simp only [noFence, Bool.not_eq_true', Bool.or_eq_false_iff] at h
  obtain ⟨⟨⟨h1, h2⟩, h3⟩, h4⟩ := h
  simp only [post_process_chunk, openai_math_markup]
  rw [replace2_of_not_contains _ _ _ _ h1, replace2_of_not_contains _ _ _ _ h2,
    replace2_of_not_contains _ _ _ _ h3, replace2_of_not_contains _ _ _ _ h4]

theorem streamGo_concat :
    ∀ (chunks : List MessageChunk) (acc : Str),
      noFence (acc ++ contentsConcat chunks) = true →
      (streamGo chunks acc).flatten = acc ++ contentsConcat chunks := by
  intro chunks
  induction chunks with
  | nil =>
    intro acc _
    simp [streamGo, contentsConcat]
  | cons c rest ih =>
    intro acc h
    have hassoc : acc ++ contentsConcat (c :: rest)
        = (acc ++ c.content) ++ contentsConcat rest := by
      simp [contentsConcat, List.append_assoc]
    rw [hassoc] at h
    obtain ⟨hacc2, hrest⟩ := noFence_append _ _ h
    simp only [streamGo]
    by_cases hc : ¬ endsWithBackslash (acc ++ c.content) ∧ 60 < (acc ++ c.content).length
    · rw [if_pos hc]
      have hnil : noFence ([] ++ contentsConcat rest) = true := by simpa using hrest
      simp only [List.flatten_cons, post_process_of_noFence _ hacc2, ih [] hnil, hassoc]
      simp [contentsConcat]
    · rw [if_neg hc, ih (acc ++ c.content) h, hassoc]

/-- Claim C1 (amended): for every chunk stream whose concatenated `content`
contains none of the OpenAI latex fence sequences, the concatenation of the
strings yielded by `stream_model_response` reproduces the concatenation of
the chunks' `content` fields in arrival order exactly, regardless of how many
chunks carry `tool_call`, token counts, or `finish_reason` instead of text.
(As stated the claim fails: intermediate yields pass through
`post_process_chunk`, which rewrites the latex fences to `$$`.) -/
theorem c1_stream_yields_amended (chunks : List MessageChunk)
    (h : noFence (contentsConcat chunks) = true) :
    yieldsConcat chunks = contentsConcat chunks := by
  have h2 : noFence ([] ++ contentsConcat chunks) = true := by simpa using h
  simpa using streamGo_concat chunks [] h2

/-- A single well-formed text chunk whose content is 61 characters long and
starts with the latex fence sequence backslash-bracket. -/
def c1CexChunk : MessageChunk :=
  { input_tokens := none, output_tokens := none,
    content := '\\' :: '[' :: List.replicate 59 'a',
    finish_reason := none, tool_call := none }

/-- Claim C1 counterexample: on this stream the concatenation of yielded
strings differs from the concatenation of the chunk contents, because the
intermediate 61-character chunk is post-processed and its latex fence is
rewritten to `$$`. -/
theorem c1_counterexample :
    yieldsConcat [c1CexChunk] ≠ contentsConcat [c1CexChunk] := by
  decide

/-- A concrete stream interleaving text, token-count, finish-reason and
tool-call chunks, with fence-free content. -/
def c1WitnessChunks : List MessageChunk :=
  [ { input_tokens := some 12, output_tokens := none, content := [],
      finish_reason := none, tool_call := none },
    { input_tokens := none, output_tokens := none,
      content := "The answer is computed by adding the two numbers together".data,
      finish_reason := none, tool_call := none },
    { input_tokens := none, output_tokens := none, content := [],
      finish_reason := none,
      tool_call := some { id := "t1".data, name := "add".data, parameters := ⟨[]⟩ } },
    { input_tokens := none, output_tokens := none,
      content := " and then checking the result.".data,
      finish_reason := none, tool_call := none },
    { input_tokens := none, output_tokens := some 44, content := [],
      finish_reason := some FinishReason.Stop, tool_call := none } ]

theorem c1_stream_yields_amended_witness :
    noFence (contentsConcat c1WitnessChunks) = true ∧
      yieldsConcat c1WitnessChunks = contentsConcat c1WitnessChunks :=
  ⟨by decide, c1_stream_yields_amended c1WitnessChunks (by decide)⟩

/-! ## `view_chat.py`: `generate_assistant_message`, the agent loop

The model is abstracted over the tool executor: `execute_tool` either returns
a result string, or raises `ValueError` (modelled as `none`), in which case
the `except ValueError` clause in the loop skips appending that call/result
pair.  Each model turn's chunk stream is an element of `streams`; a missing
stream behaves as an empty stream (no text, no tool calls). -/

/-- The assistant text assembled by `st.write_stream` from the generator's
yields. -/
def assistantText (chunks : List MessageChunk) : Str :=
  yieldsConcat chunks

/-- The `for tool_call in tool_acc` loop body: execute the tool and append
`ToolCallMessage` then `ToolResultMessage`; on `ValueError` the pair is
skipped. -/
def appendPairs (exec : ToolCallMessage → Option Str)
    (acc : List ToolCallMessage) : List Message :=
  acc.flatMap (fun tc =>
    match exec tc with
    | some r =>
      [Message.toolCallMessage tc,
       Message.toolResultMessage { id := tc.id, name := tc.name, result := r }]
    | none => [])

/-- One iteration of the `while turns` loop: append the assistant text (if
non-empty), then the call/result pairs; return the updated conversation and
the `tool_use` flag. -/
def agentTurn (exec : ToolCallMessage → Option Str)
    (stream : List MessageChunk) (msgs : List Message) :
    List Message × Bool :=
  let m := assistantText stream
  let msgs1 := if m = [] then msgs else msgs ++ [Message.assistantMessage m]
  let acc := toolAcc stream
  (msgs1 ++ appendPairs exec acc, (0 < acc.length : Bool))

/-- The messages one turn appends to the conversation. -/
def turnAppend (exec : ToolCallMessage → Option Str)
    (stream : List MessageChunk) : List Message :=
  (if assistantText stream = [] then []
   else [Message.assistantMessage (assistantText stream)]) ++
    appendPairs exec (toolAcc stream)

/-- The `while turns:` loop of `generate_assistant_message`, with the turn
counter as fuel: run a turn on the next stream; if it accumulated tool calls,
continue, otherwise break.  Returns the final conversation and the number of
turns executed. -/
def agentLoop (exec : ToolCallMessage → Option Str) :
    Nat → List (List MessageChunk) → List Message → List Message × Nat
  | 0, _, msgs => (msgs, 0)
  | Nat.succ fuel, streams, msgs =>
    let stream := streams.headD []
    let tr := agentTurn exec stream msgs
    if tr.2 then
      let rec2 := agentLoop exec fuel streams.tail tr.1
      (rec2.1, rec2.2 + 1)
    else (tr.1, 1)

/-- `generate_assistant_message` from `view_chat.py`: the agent loop with the
hard ceiling `turns = 20`. -/
def generate_assistant_message (exec : ToolCallMessage → Option Str)
    (streams : List (List MessageChunk)) (msgs : List Message) :
    List Message × Nat :=
  agentLoop exec 20 streams msgs

theorem agentTurn_eq (exec : ToolCallMessage → Option Str)
    (stream : List MessageChunk) (msgs : List Message) :
    agentTurn exec stream msgs
      = (msgs ++ turnAppend exec stream, (0 < (toolAcc stream).length : Bool)) := by
  simp only [agentTurn, turnAppend]
  by_cases h : assistantText stream = []
  · simp [h]
  · simp [h]

theorem agentLoop_turns_le (exec : ToolCallMessage → Option Str) :
    ∀ (fuel : Nat) (streams : List (List MessageChunk)) (msgs : List Message),
      (agentLoop exec fuel streams msgs).2 ≤ fuel := by
  intro fuel
  induction fuel with
  | zero => intro streams msgs; simp [agentLoop]
  | succ fuel ih =>
    intro streams msgs
    simp only [agentLoop]
    by_cases h : (agentTurn exec (streams.headD []) msgs).2
    · simp only [if_pos h]
      exact Nat.succ_le_succ (ih streams.tail _)
    · simp only [if_neg h]
      exact Nat.succ_le_succ (Nat.zero_le _)

theorem agentLoop_all_tool_use (exec : ToolCallMessage → Option Str) :
    ∀ (fuel : Nat) (streams : List (List MessageChunk)) (msgs : List Message),
      fuel ≤ streams.length →
      (∀ s ∈ streams.take fuel, toolAcc s ≠ []) →
      agentLoop exec fuel streams msgs
        = (msgs ++ (streams.take fuel).flatMap (turnAppend exec), fuel) := by
  intro fuel
  induction fuel with
  | zero => intro streams msgs _ _; simp [agentLoop]
  | succ fuel ih =>
    intro streams msgs hlen hall
    cases streams with
    | nil => simp at hlen
    | cons s rest =>
      have hs : toolAcc s ≠ [] := hall s (by simp)
      have hlen2 : fuel ≤ rest.length := Nat.le_of_succ_le_succ (by simpa using hlen)
      have hall2 : ∀ x ∈ rest.take fuel, toolAcc x ≠ [] := by
        intro x hx
        exact hall x (by simp [hx])
      have htu : (0 < (toolAcc s).length : Bool) = true := by
        simpa [List.length_pos_iff_ne_nil] using hs
      simp only [agentLoop, List.headD_cons, List.tail_cons, agentTurn_eq, htu, if_pos]
      rw [ih rest (msgs ++ turnAppend exec s) hlen2 hall2]
      simp [List.append_assoc]

theorem agentLoop_first_no_tool (exec : ToolCallMessage → Option Str)
    (fuel : Nat) (streams : List (List MessageChunk)) (msgs : List Message)
    (h : toolAcc (streams.headD []) = []) :
    agentLoop exec (fuel + 1) streams msgs
      = (msgs ++ turnAppend exec (streams.headD []), 1) := by
  have htu : (0 < (toolAcc (streams.headD [])).length : Bool) = false := by
    rw [h]
    simp
  simp only [agentLoop, agentTurn_eq, htu]
  simp

theorem agentLoop_no_tool_at (exec : ToolCallMessage → Option Str) :
    ∀ (k fuel : Nat) (streams : List (List MessageChunk)) (msgs : List Message),
      k < fuel → k ≤ streams.length →
      (∀ s ∈ streams.take k, toolAcc s ≠ []) →
      toolAcc ((streams.drop k).headD []) = [] →
      agentLoop exec fuel streams msgs
        = (msgs ++ (streams.take (k + 1)).flatMap (turnAppend exec), k + 1) := by
  intro k
  induction k with
  | zero =>
    intro fuel streams msgs hfuel _ _ hstop
    obtain ⟨f, rfl⟩ : ∃ f, fuel = f + 1 := ⟨fuel - 1, by omega⟩
    rw [agentLoop_first_no_tool exec f streams msgs (by simpa using hstop)]
    cases streams with
    | nil =>
      have hT : turnAppend exec ([] : List MessageChunk) = [] := rfl
      simp [hT]
    | cons s rest => simp
  | succ k ih =>
    intro fuel streams msgs hfuel hlen hall hstop
    obtain ⟨f, rfl⟩ : ∃ f, fuel = f + 1 := ⟨fuel - 1, by omega⟩
    cases streams with
    | nil => simp at hlen
    | cons s rest =>
      have hs : toolAcc s ≠ [] := hall s (by simp)
      have htu : (0 < (toolAcc s).length : Bool) = true := by
        simpa [List.length_pos_iff_ne_nil] using hs
      have hlen2 : k ≤ rest.length := by
        simp only [List.length_cons] at hlen
        omega
      have hall2 : ∀ x ∈ rest.take k, toolAcc x ≠ [] := by
        intro x hx
        exact hall x (by simp [hx])
      have hstop2 : toolAcc ((rest.drop k).headD []) = [] := by
        simpa using hstop
      simp only [agentLoop, List.headD_cons, List.tail_cons, agentTurn_eq, htu, if_pos]
      rw [ih f rest (msgs ++ turnAppend exec s) (by omega) hlen2 hall2 hstop2]
      simp [List.take_succ_cons, List.flatMap_cons, List.append_assoc]

/-- Claim C3: the agent loop executes at most 20 model turns; if every one of
the first 20 streams accumulates at least one tool call, it performs exactly
20 turns and exits normally, the per-turn appends (assistant text followed by
call/result pairs) concatenated in turn order; and whenever a turn
accumulates no tool calls — after any number `k < 20` of tool-calling turns —
the loop exits after that turn, having executed exactly `k + 1` turns, again
with the per-turn appends concatenated in order. -/
theorem c3_turn_ceiling (exec : ToolCallMessage → Option Str)
    (streams : List (List MessageChunk)) (msgs : List Message) :
    (generate_assistant_message exec streams msgs).2 ≤ 20 ∧
    (20 ≤ streams.length → (∀ s ∈ streams.take 20, toolAcc s ≠ []) →
      generate_assistant_message exec streams msgs
        = (msgs ++ (streams.take 20).flatMap (turnAppend exec), 20)) ∧
    (∀ k : Nat, k < 20 → k ≤ streams.length →
      (∀ s ∈ streams.take k, toolAcc s ≠ []) →
      toolAcc ((streams.drop k).headD []) = [] →
      generate_assistant_message exec streams msgs
        = (msgs ++ (streams.take (k + 1)).flatMap (turnAppend exec), k + 1)) := by
  refine ⟨agentLoop_turns_le exec 20 streams msgs, ?_, ?_⟩
  · intro hlen hall
    exact agentLoop_all_tool_use exec 20 streams msgs hlen hall
  · intro k hk hlen hall hstop
    exact agentLoop_no_tool_at exec k 20 streams msgs hk hlen hall hstop

/-- A chunk carrying one tool call and nothing else. -/
def toolChunk (idStr : Str) : MessageChunk :=
  { input_tokens := none, output_tokens := none, content := [],
    finish_reason := none,
    tool_call := some { id := idStr, name := "add".data, parameters := ⟨[]⟩ } }

/-- Twenty single-tool-call streams: every turn re-triggers a tool call. -/
def c3WitnessStreams : List (List MessageChunk) :=
  (List.range 20).map (fun i => [toolChunk (Nat.toDigits 10 i)])

/-- Two tool-calling streams, then a no-tool stream, then one more stream
that is never reached. -/
def c3EarlyStreams : List (List MessageChunk) :=
  [[toolChunk "e1".data], [toolChunk "e2".data], [], [toolChunk "e3".data]]

theorem c3_turn_ceiling_witness :
    (20 ≤ c3WitnessStreams.length ∧
      (∀ s ∈ c3WitnessStreams.take 20, toolAcc s ≠ []) ∧
      generate_assistant_message (fun _ => some "4".data) c3WitnessStreams []
        = ([] ++ (c3WitnessStreams.take 20).flatMap
            (turnAppend (fun _ => some "4".data)), 20)) ∧
    (2 < 20 ∧ 2 ≤ c3EarlyStreams.length ∧
      (∀ s ∈ c3EarlyStreams.take 2, toolAcc s ≠ []) ∧
      toolAcc ((c3EarlyStreams.drop 2).headD []) = [] ∧
      generate_assistant_message (fun _ => some "4".data) c3EarlyStreams []
        = ([] ++ (c3EarlyStreams.take (2 + 1)).flatMap
            (turnAppend (fun _ => some "4".data)), 2 + 1)) :=
  ⟨⟨by decide, by decide,
     (c3_turn_ceiling (fun _ => some "4".data) c3WitnessStreams []).2.1
       (by decide) (by decide)⟩,
   ⟨by decide, by decide, by decide, by decide,
     (c3_turn_ceiling (fun _ => some "4".data) c3EarlyStreams []).2.2 2
       (by decide) (by decide) (by decide) (by decide)⟩⟩

/-! ## Claim C2: call/result pairing invariant -/

/-- A conversation is well paired when every `ToolResultMessage` is
immediately preceded by a `ToolCallMessage` with the same `id` and `name`,
and every `ToolCallMessage` is immediately followed by its result. -/
def pairedOK : List Message → Bool
  | [] => true
  | .toolCallMessage c :: .toolResultMessage r :: rest =>
    (c.id = r.id ∧ c.name = r.name : Bool) && pairedOK rest
  | .toolCallMessage _ :: _ => false
  | .toolResultMessage _ :: _ => false
  | _ :: rest => pairedOK rest

/-- The `id`s of the `ToolCallMessage` entries, in order. -/
def callIds (msgs : List Message) : List Str :=
  msgs.filterMap (fun m =>
    match m with
    | .toolCallMessage c => some c.id
    | _ => none)

/-- The `id`s of the `ToolResultMessage` entries, in order. -/
def resultIds (msgs : List Message) : List Str :=
  msgs.filterMap (fun m =>
    match m with
    | .toolResultMessage r => some r.id
    | _ => none)

/-- Whether a message is a tool call or tool result entry. -/
def isToolMessage : Message → Bool
  | .toolCallMessage _ => true
  | .toolResultMessage _ => true
  | _ => false

theorem pairedOK_cons_other (m : Message) (rest : List Message)
    (h : isToolMessage m = false) :
    pairedOK (m :: rest) = pairedOK rest := by
  cases m with
  | toolCallMessage c => simp [isToolMessage] at h
  | toolResultMessage r => simp [isToolMessage] at h
  | systemMessage t => rfl
  | userMessage t => rfl
  | assistantMessage t => rfl
  | includedFile n e d => rfl
  | includedImage n p => rfl

theorem pairedOK_append_nonTool (rest : List Message) :
    ∀ msgs : List Message, (∀ m ∈ msgs, isToolMessage m = false) →
      pairedOK (msgs ++ rest) = pairedOK rest := by
  intro msgs
  induction msgs with
  | nil => intro _; rfl
  | cons m ms ih =>
    intro h
    rw [List.cons_append, pairedOK_cons_other m _ (h m (by simp))]
    exact ih (fun x hx => h x (by simp [hx]))

theorem pairedOK_appendPairs (exec : ToolCallMessage → Option Str)
    (rest : List Message) (hrest : pairedOK rest = true) :
    ∀ acc : List ToolCallMessage, pairedOK (appendPairs exec acc ++ rest) = true := by
  intro acc
  induction acc with
  | nil => simpa [appendPairs] using hrest
  | cons tc acc2 ih =>
    simp only [appendPairs, List.flatMap_cons] at ih ⊢
    cases hx : exec tc with
    | none => simpa using ih
    | some r =>
      simp only [List.append_assoc, List.cons_append, List.nil_append, pairedOK]
      simpa using ih

theorem pairedOK_turnAppend (exec : ToolCallMessage → Option Str)
    (stream : List MessageChunk) (rest : List Message)
    (hrest : pairedOK rest = true) :
    pairedOK (turnAppend exec stream ++ rest) = true := by
  simp only [turnAppend, List.append_assoc]
  by_cases h : assistantText stream = []
  · rw [if_pos h, List.nil_append]
    exact pairedOK_appendPairs exec rest hrest _
  · rw [if_neg h, List.cons_append, List.nil_append,
      pairedOK_cons_other _ _ (by rfl)]
    exact pairedOK_appendPairs exec rest hrest _

/-- The messages appended over the whole loop, in turn order. -/
def loopAppend (exec : ToolCallMessage → Option Str) :
    Nat → List (List MessageChunk) → List Message
  | 0, _ => []
  | fuel + 1, streams =>
    let s := streams.headD []
    turnAppend exec s ++
      (if (0 < (toolAcc s).length : Bool) then loopAppend exec fuel streams.tail
       else [])

theorem agentLoop_fst (exec : ToolCallMessage → Option Str) :
    ∀ (fuel : Nat) (streams : List (List MessageChunk)) (msgs : List Message),
      (agentLoop exec fuel streams msgs).1 = msgs ++ loopAppend exec fuel streams := by
  intro fuel
  induction fuel with
  | zero => intro streams msgs; simp [agentLoop, loopAppend]
  | succ fuel ih =>
    intro streams msgs
    simp only [agentLoop, loopAppend, agentTurn_eq]
    by_cases h : (0 < (toolAcc (streams.headD [])).length : Bool)
    · simp only [if_pos h, ih, List.append_assoc]
    · simp only [if_neg h, Bool.not_eq_true] at h ⊢
      simp [h]

theorem pairedOK_loopAppend (exec : ToolCallMessage → Option Str) :
    ∀ (fuel : Nat) (streams : List (List MessageChunk)),
      pairedOK (loopAppend exec fuel streams) = true := by
  intro fuel
  induction fuel with
  | zero => intro streams; rfl
  | succ fuel ih =>
    intro streams
    simp only [loopAppend]
    apply pairedOK_turnAppend
    by_cases h : (0 < (toolAcc (streams.headD [])).length : Bool)
    · rw [if_pos h]; exact ih streams.tail
    · rw [if_neg h]; rfl

theorem callIds_appendPairs_sublist (exec : ToolCallMessage → Option Str) :
    ∀ acc : List ToolCallMessage,
      (callIds (appendPairs exec acc)).Sublist (acc.map (fun tc => tc.id)) := by
  intro acc
  induction acc with
  | nil => simp [appendPairs, callIds]
  | cons tc acc2 ih =>
    simp only [appendPairs, List.flatMap_cons, List.map_cons] at ih ⊢
    cases hx : exec tc with
    | none =>
      simp only [callIds, List.filterMap_append, List.filterMap_nil, List.nil_append]
      exact List.Sublist.cons _ ih
    | some r =>
      simp only [callIds, List.filterMap_append, List.filterMap_cons, List.filterMap_nil]
      exact List.Sublist.cons₂ _ ih

theorem resultIds_appendPairs_sublist (exec : ToolCallMessage → Option Str) :
    ∀ acc : List ToolCallMessage,
      (resultIds (appendPairs exec acc)).Sublist (acc.map (fun tc => tc.id)) := by
  intro acc
  induction acc with
  | nil => simp [appendPairs, resultIds]
  | cons tc acc2 ih =>
    simp only [appendPairs, List.flatMap_cons, List.map_cons] at ih ⊢
    cases hx : exec tc with
    | none =>
      simp only [resultIds, List.filterMap_append, List.filterMap_nil, List.nil_append]
      exact List.Sublist.cons _ ih
    | some r =>
      simp only [resultIds, List.filterMap_append, List.filterMap_cons, List.filterMap_nil]
      exact List.Sublist.cons₂ _ ih

theorem callIds_turnAppend_sublist (exec : ToolCallMessage → Option Str)
    (stream : List MessageChunk) :
    (callIds (turnAppend exec stream)).Sublist
      ((toolAcc stream).map (fun tc => tc.id)) := by
  simp only [turnAppend, callIds, List.filterMap_append]
  by_cases h : assistantText stream = []
  · rw [if_pos h]
    simpa using callIds_appendPairs_sublist exec (toolAcc stream)
  · rw [if_neg h]
    simpa using callIds_appendPairs_sublist exec (toolAcc stream)

theorem resultIds_turnAppend_sublist (exec : ToolCallMessage → Option Str)
    (stream : List MessageChunk) :
    (resultIds (turnAppend exec stream)).Sublist
      ((toolAcc stream).map (fun tc => tc.id)) := by
  simp only [turnAppend, resultIds, List.filterMap_append]
  by_cases h : assistantText stream = []
  · rw [if_pos h]
    simpa using resultIds_appendPairs_sublist exec (toolAcc stream)
  · rw [if_neg h]
    simpa using resultIds_appendPairs_sublist exec (toolAcc stream)

theorem callIds_loopAppend_sublist (exec : ToolCallMessage → Option Str) :
    ∀ (fuel : Nat) (streams : List (List MessageChunk)),
      (callIds (loopAppend exec fuel streams)).Sublist
        (((streams.take fuel).flatMap toolAcc).map (fun tc => tc.id)) := by
  intro fuel
  induction fuel with
  | zero => intro streams; simp [loopAppend, callIds]
  | succ fuel ih =>
    intro streams
    cases streams with
    | nil =>
      have hTurn : turnAppend exec ([] : List MessageChunk) = [] := rfl
      have hcond : ((0 < (toolAcc ([] : List MessageChunk)).length : Bool)) = false := rfl
      simp [loopAppend, hTurn, hcond, callIds]
    | cons s rest =>
      simp only [loopAppend, List.headD_cons, List.tail_cons, List.take_succ_cons,
        List.flatMap_cons, List.map_append, callIds, List.filterMap_append]
      apply List.Sublist.append
      · exact callIds_turnAppend_sublist exec s
      · by_cases h : (0 < (toolAcc s).length : Bool)
        · rw [if_pos h]; exact ih rest
        · rw [if_neg h]; simp

theorem resultIds_loopAppend_sublist (exec : ToolCallMessage → Option Str) :
    ∀ (fuel : Nat) (streams : List (List MessageChunk)),
      (resultIds (loopAppend exec fuel streams)).Sublist
        (((streams.take fuel).flatMap toolAcc).map (fun tc => tc.id)) := by
  intro fuel
  induction fuel with
  | zero => intro streams; simp [loopAppend, resultIds]
  | succ fuel ih =>
    intro streams
    cases streams with
    | nil =>
      have hTurn : turnAppend exec ([] : List MessageChunk) = [] := rfl
      have hcond : ((0 < (toolAcc ([] : List MessageChunk)).length : Bool)) = false := rfl
      simp [loopAppend, hTurn, hcond, resultIds]
    | cons s rest =>
      simp only [loopAppend, List.headD_cons, List.tail_cons, List.take_succ_cons,
        List.flatMap_cons, List.map_append, resultIds, List.filterMap_append]
      apply List.Sublist.append
      · exact resultIds_turnAppend_sublist exec s
      · by_cases h : (0 < (toolAcc s).length : Bool)
        · rw [if_pos h]; exact ih rest
        · rw [if_neg h]; simp

theorem pairedOK_result_decomp :
    ∀ (n : Nat) (msgs : List Message), msgs.length ≤ n → pairedOK msgs = true →
      ∀ (l : List Message) (r : ToolResultMessage) (rest : List Message),
        msgs = l ++ Message.toolResultMessage r :: rest →
        ∃ l2 c, l = l2 ++ [Message.toolCallMessage c]
          ∧ c.id = r.id ∧ c.name = r.name := by
  intro n
  induction n with
  | zero =>
    intro msgs hlen hp l r rest heq
    have hnil : msgs = [] := List.length_eq_zero.mp (Nat.le_zero.mp hlen)
    subst hnil
    exact absurd heq (by simp)
  | succ n ih =>
    intro msgs hlen hp l r rest heq
    cases l with
    | nil =>
      simp only [List.nil_append] at heq
      subst heq
      simp [pairedOK] at hp
    | cons x l2 =>
      simp only [List.cons_append] at heq
      subst heq
      cases x with
      | toolResultMessage r0 => simp [pairedOK] at hp
      | toolCallMessage c =>
        cases l2 with
        | nil =>
          simp only [List.nil_append, pairedOK, Bool.and_eq_true,
            decide_eq_true_eq] at hp
          exact ⟨[], c, by simp, hp.1.1, hp.1.2⟩
        | cons y l3 =>
          cases y with
          | toolResultMessage r0 =>
            simp only [List.cons_append, pairedOK, Bool.and_eq_true,
              decide_eq_true_eq] at hp
            have hlen2 : (l3 ++ Message.toolResultMessage r :: rest).length ≤ n := by
              simp only [List.length_cons, List.length_append] at hlen ⊢
              omega
            obtain ⟨l4, c2, hd, hi, hn⟩ :=
              ih (l3 ++ Message.toolResultMessage r :: rest) hlen2 hp.2 l3 r rest rfl
            exact ⟨Message.toolCallMessage c :: Message.toolResultMessage r0 :: l4,
              c2, by simp [hd], hi, hn⟩
          | toolCallMessage c2 => simp [pairedOK] at hp
          | systemMessage t => simp [pairedOK] at hp
          | userMessage t => simp [pairedOK] at hp
          | assistantMessage t => simp [pairedOK] at hp
          | includedFile nm e d => simp [pairedOK] at hp
          | includedImage nm p => simp [pairedOK] at hp
      | systemMessage t =>
        rw [pairedOK_cons_other (Message.systemMessage t) _ rfl] at hp
        have hlen2 : (l2 ++ Message.toolResultMessage r :: rest).length ≤ n := by
          simp only [List.length_cons] at hlen
          omega
        obtain ⟨l4, c2, hd, hi, hn⟩ := ih _ hlen2 hp l2 r rest rfl
        exact ⟨Message.systemMessage t :: l4, c2, by simp [hd], hi, hn⟩
      | userMessage t =>
        rw [pairedOK_cons_other (Message.userMessage t) _ rfl] at hp
        have hlen2 : (l2 ++ Message.toolResultMessage r :: rest).length ≤ n := by
          simp only [List.length_cons] at hlen
          omega
        obtain ⟨l4, c2, hd, hi, hn⟩ := ih _ hlen2 hp l2 r rest rfl
        exact ⟨Message.userMessage t :: l4, c2, by simp [hd], hi, hn⟩
      | assistantMessage t =>
        rw [pairedOK_cons_other (Message.assistantMessage t) _ rfl] at hp
        have hlen2 : (l2 ++ Message.toolResultMessage r :: rest).length ≤ n := by
          simp only [List.length_cons] at hlen
          omega
        obtain ⟨l4, c2, hd, hi, hn⟩ := ih _ hlen2 hp l2 r rest rfl
        exact ⟨Message.assistantMessage t :: l4, c2, by simp [hd], hi, hn⟩
      | includedFile nm e d =>
        rw [pairedOK_cons_other (Message.includedFile nm e d) _ rfl] at hp
        have hlen2 : (l2 ++ Message.toolResultMessage r :: rest).length ≤ n := by
          simp only [List.length_cons] at hlen
          omega
        obtain ⟨l4, c2, hd, hi, hn⟩ := ih _ hlen2 hp l2 r rest rfl
        exact ⟨Message.includedFile nm e d :: l4, c2, by simp [hd], hi, hn⟩
      | includedImage nm p =>
        rw [pairedOK_cons_other (Message.includedImage nm p) _ rfl] at hp
        have hlen2 : (l2 ++ Message.toolResultMessage r :: rest).length ≤ n := by
          simp only [List.length_cons] at hlen
          omega
        obtain ⟨l4, c2, hd, hi, hn⟩ := ih _ hlen2 hp l2 r rest rfl
        exact ⟨Message.includedImage nm p :: l4, c2, by simp [hd], hi, hn⟩

/-- Claim C2 (amended): for every conversation produced by the agent loop,
the loop appends `msgs0 ++ loopAppend`, and within the appended messages
every `ToolResultMessage` is immediately preceded by the `ToolCallMessage`
it answers, with matching `id` and `name` — so its id equals the id of a
`ToolCallMessage` appearing earlier in the message list — unconditionally.
No id appears in more than one call/result pair provided the model-issued
tool-call ids are pairwise distinct and distinct from the pair ids already
present in the conversation; the loop itself does not enforce this (a
re-issued id yields duplicate pairs, see the counterexample). -/
theorem c2_pairing_amended (exec : ToolCallMessage → Option Str)
    (streams : List (List MessageChunk)) (msgs0 : List Message) :
    ((generate_assistant_message exec streams msgs0).1
        = msgs0 ++ loopAppend exec 20 streams) ∧
    pairedOK (loopAppend exec 20 streams) = true ∧
    (∀ (l : List Message) (r : ToolResultMessage) (rest : List Message),
        loopAppend exec 20 streams = l ++ Message.toolResultMessage r :: rest →
        ∃ l2 c, l = l2 ++ [Message.toolCallMessage c]
          ∧ c.id = r.id ∧ c.name = r.name) ∧
    ((callIds msgs0
        ++ ((streams.take 20).flatMap toolAcc).map (fun tc => tc.id)).Nodup →
      (callIds (generate_assistant_message exec streams msgs0).1).Nodup) ∧
    ((resultIds msgs0
        ++ ((streams.take 20).flatMap toolAcc).map (fun tc => tc.id)).Nodup →
      (resultIds (generate_assistant_message exec streams msgs0).1).Nodup) := by
  have hfst : (generate_assistant_message exec streams msgs0).1
      = msgs0 ++ loopAppend exec 20 streams := agentLoop_fst exec 20 streams msgs0
  have hp : pairedOK (loopAppend exec 20 streams) = true :=
    pairedOK_loopAppend exec 20 streams
  refine ⟨hfst, hp, ?_, ?_, ?_⟩
  · intro l r rest heq
    exact pairedOK_result_decomp (loopAppend exec 20 streams).length
      _ le_rfl hp l r rest heq
  · intro hids
    rw [hfst]
    have happ : callIds (msgs0 ++ loopAppend exec 20 streams)
        = callIds msgs0 ++ callIds (loopAppend exec 20 streams) := by
      simp [callIds, List.filterMap_append]
    rw [happ]
    exact List.Nodup.sublist
      (List.Sublist.append (List.Sublist.refl _)
        (callIds_loopAppend_sublist exec 20 streams)) hids
  · intro hids
    rw [hfst]
    have happ : resultIds (msgs0 ++ loopAppend exec 20 streams)
        = resultIds msgs0 ++ resultIds (loopAppend exec 20 streams) := by
      simp [resultIds, List.filterMap_append]
    rw [happ]
    exact List.Nodup.sublist
      (List.Sublist.append (List.Sublist.refl _)
        (resultIds_loopAppend_sublist exec 20 streams)) hids

/-- A stream in which the model issues two tool calls with the same id. -/
def c2CexStreams : List (List MessageChunk) :=
  [[toolChunk "x".data, toolChunk "x".data], []]

/-- Claim C2 counterexample: when the model re-issues the id `"x"` within one
turn, the agent loop appends two call/result pairs with the same id, so the
claim's "no id appears in more than one call/result pair" fails on the
produced conversation. -/
theorem c2_counterexample :
    ¬ (callIds (generate_assistant_message (fun _ => some "4".data) c2CexStreams
        [Message.systemMessage "s".data, Message.userMessage "hi".data]).1).Nodup := by
  decide

/-- Two turns with distinct tool-call ids followed by a plain-text turn. -/
def c2WitnessStreams : List (List MessageChunk) :=
  [[toolChunk "a1".data], [toolChunk "a2".data], []]

theorem c2_pairing_amended_witness :
    (loopAppend (fun _ => some "4".data) 20 c2WitnessStreams
        = [Message.toolCallMessage ⟨"a1".data, "add".data, ⟨[]⟩⟩,
           Message.toolResultMessage ⟨"a1".data, "add".data, "4".data⟩,
           Message.toolCallMessage ⟨"a2".data, "add".data, ⟨[]⟩⟩,
           Message.toolResultMessage ⟨"a2".data, "add".data, "4".data⟩]) ∧
    (∃ l2 c, [Message.toolCallMessage ⟨"a1".data, "add".data, ⟨[]⟩⟩]
        = l2 ++ [Message.toolCallMessage c]
        ∧ c.id = (⟨"a1".data, "add".data, "4".data⟩ : ToolResultMessage).id
        ∧ c.name = (⟨"a1".data, "add".data, "4".data⟩ : ToolResultMessage).name) ∧
    (callIds [Message.systemMessage "s".data, Message.userMessage "hi".data]
        ++ ((c2WitnessStreams.take 20).flatMap toolAcc).map
          (fun tc => tc.id)).Nodup ∧
    (callIds (generate_assistant_message (fun _ => some "4".data) c2WitnessStreams
        [Message.systemMessage "s".data, Message.userMessage "hi".data]).1).Nodup ∧
    (resultIds [Message.systemMessage "s".data, Message.userMessage "hi".data]
        ++ ((c2WitnessStreams.take 20).flatMap toolAcc).map
          (fun tc => tc.id)).Nodup ∧
    (resultIds (generate_assistant_message (fun _ => some "4".data) c2WitnessStreams
        [Message.systemMessage "s".data, Message.userMessage "hi".data]).1).Nodup :=
  ⟨by decide,
   (c2_pairing_amended (fun _ => some "4".data) c2WitnessStreams
      [Message.systemMessage "s".data, Message.userMessage "hi".data]).2.2.1
     [Message.toolCallMessage ⟨"a1".data, "add".data, ⟨[]⟩⟩]
     ⟨"a1".data, "add".data, "4".data⟩
     [Message.toolCallMessage ⟨"a2".data, "add".data, ⟨[]⟩⟩,
      Message.toolResultMessage ⟨"a2".data, "add".data, "4".data⟩]
     (by decide),
   by decide,
   (c2_pairing_amended (fun _ => some "4".data) c2WitnessStreams
      [Message.systemMessage "s".data, Message.userMessage "hi".data]).2.2.2.1
     (by decide),
   by decide,
   (c2_pairing_amended (fun _ => some "4".data) c2WitnessStreams
      [Message.systemMessage "s".data, Message.userMessage "hi".data]).2.2.2.2
     (by decide)⟩

/-! ## `tools.py`: the tool registry

MCP client I/O (the `fastmcp` `Client`) is external library code; a client's
observable behaviour during one `async with` block is abstracted as a
`ClientConn` record of outcomes, looked up by server id (mirroring
`_client_cache`).  The `AsyncWorker` merely forwards a coroutine's result or
exception to the calling thread, so `worker.submit(coro)` is modelled as the
coroutine's own outcome. -/

/-- Exceptions raised by MCP client calls: `ProcessLookupError`,
`httpx.HTTPError`, or anything else. -/
inductive McpErr
  | processLookup
  | httpErr
  | otherErr
deriving DecidableEq, Repr

/-- One `{type, text}` segment of a tool invocation result. -/
structure Segment where
  stype : Str
  text : Str
deriving DecidableEq, Repr

/-- A tool as advertised by a server's discovery call. -/
structure ToolInfo where
  name : Str
  description : Option Str
  inputSchema : JsonV
deriving DecidableEq, Repr

/-- The observable outcomes of one connected MCP client. -/
structure ClientConn where
  connect : Except McpErr Unit
  listTools : Except McpErr (List ToolInfo)
  callTool : Str → JsonV → Except McpErr (List Segment)

/-- `URLMCPServer` / `StdioMCPServer` from `appconfig.py`. -/
inductive MCPServer
  | url (url : Str) (allowed_tools : List Str)
  | stdio (command : Str) (args : List Str) (allowed_tools : List Str)
deriving DecidableEq, Repr

/-- The `id` property: the URL, or `command + "-" + "-".join(args)`. -/
def MCPServer.id : MCPServer → Str
  | .url u _ => u
  | .stdio cmd args _ => cmd ++ "-".data ++ List.intercalate "-".data args

/-- The `allowed_tools` field of either server variant. -/
def MCPServer.allowed_tools : MCPServer → List Str
  | .url _ a => a
  | .stdio _ _ a => a

/-- The `Tool` dataclass from `tools.py`. -/
structure Tool where
  name : Str
  description : Str
  function_name : Str
  parameters : JsonV
  server : MCPServer
  enabled : Bool := true
deriving DecidableEq, Repr

/-- The mutable state of `ToolRegistry` relevant to the claims: the
name-keyed tools dict and the `_initialised` flag.  (`_client_cache` holds
live connections, abstracted by the `env` lookup.) -/
structure ToolRegistry where
  tools : List (Str × Tool)
  initialised : Bool
deriving DecidableEq, Repr

/-- Exceptions raised by registry methods: `RuntimeError("Tools not
initialised")`, `ValueError(f"Unknown tool: ...")`, the duplicate-name
`ValueError`, and propagated MCP client errors. -/
inductive ToolsErr
  | runtimeNotInitialised
  | valueUnknownTool (name : Str)
  | valueDuplicate (name : Str)
  | mcp (e : McpErr)
deriving DecidableEq, Repr

instance {ε α : Type} [DecidableEq ε] [DecidableEq α] : DecidableEq (Except ε α) :=
  fun x y =>
    match x, y with
    | .ok a, .ok b =>
      if h : a = b then .isTrue (by subst h; rfl)
      else .isFalse (fun hc => h (Except.ok.inj hc))
    | .error a, .error b =>
      if h : a = b then .isTrue (by subst h; rfl)
      else .isFalse (fun hc => h (Except.error.inj hc))
    | .ok _, .error _ => .isFalse (fun hc => Except.noConfusion hc)
    | .error _, .ok _ => .isFalse (fun hc => Except.noConfusion hc)

/-- Characters stripped by Python's `str.strip()`. -/
def isPySpace (c : Char) : Bool :=
  c = ' ' || c = '\t' || c = '\n' || c = '\r' || c = '\x0b' || c = '\x0c'

/-- Python `str.strip()`. -/
def pyStrip (s : Str) : Str :=
  ((s.dropWhile isPySpace).reverse.dropWhile isPySpace).reverse

/-- The body of `_run_tool`'s `async with` block: connect, list the server's
tools, and call the tool only if it is still advertised; `result` stays
`None` otherwise. -/
def runToolBody (conn : ClientConn) (toolName : Str) (params : JsonV) :
    Except McpErr (Option (List Segment)) := do
  let _ ← conn.connect
  let ts ← conn.listTools
  if ts.any (fun t => t.name = toolName) then
    let r ← conn.callTool toolName params
    pure (some r)
  else
    pure none

/-- `_run_tool` from `tools.py`: joins the `text`-typed result segments with
newlines; `None` becomes the empty string; only `ProcessLookupError` is
caught (and becomes the empty string) — any other exception propagates. -/
def run_tool (conn : ClientConn) (toolName : Str) (params : JsonV) :
    Except McpErr Str :=
  match runToolBody conn toolName params with
  | .ok (some segs) =>
    .ok (List.intercalate "\n".data
      ((segs.filter (fun s => s.stype = "text".data)).map (fun s => s.text)))
  | .ok none => .ok []
  | .error .processLookup => .ok []
  | .error e => .error e

/-- `_list_tools` composed with `_get_available_tools`'s error handling: both
`except` clauses in `_list_tools` return `[]`, and `_get_available_tools`
additionally catches `httpx.HTTPError` as `[]` — so every failure yields an
empty tool list. -/
def list_tools (conn : ClientConn) : List ToolInfo :=
  match (do
      let _ ← conn.connect
      conn.listTools : Except McpErr (List ToolInfo)) with
  | .ok ts => ts
  | .error _ => []

/-- `_get_available_tools` from `tools.py`: wrap each advertised tool in a
`Tool` record owned by server `s`. -/
def get_available_tools (env : Str → ClientConn) (s : MCPServer) : List Tool :=
  (list_tools (env s.id)).map (fun x =>
    { name := x.name, description := x.description.getD [],
      function_name := x.name, parameters := x.inputSchema,
      server := s, enabled := true })

/-- The per-server duplicate-name check of `_iterate_enabled_tools`: walk the
advertised names, raising `ValueError` on one already seen, and return the
grown `seen_tools` set. -/
def checkDupNames : List Str → List Str → Except ToolsErr (List Str)
  | seen, [] => .ok seen
  | seen, n :: ns =>
    if n ∈ seen then .error (.valueDuplicate n)
    else checkDupNames (n :: seen) ns

/-- `_iterate_enabled_tools` from `tools.py`, consumed eagerly (as
`initialise_tools` does): for each configured server, in order, contact it,
check all advertised names for global duplicates, then yield the advertised
tools whose names are on the server's allow-list (after stripping), provided
both lists are non-empty.  Also returns the ids of the servers contacted. -/
def iterGo (env : Str → ClientConn) :
    List (Str × MCPServer) → List Str → List Str × Except ToolsErr (List Tool)
  | [], _ => ([], .ok [])
  | (_, s) :: rest, seen =>
    let available := get_available_tools env s
    match checkDupNames seen (available.map (fun t => t.name)) with
    | .error e => ([s.id], .error e)
    | .ok seen2 =>
      let allowed := s.allowed_tools.map pyStrip
      let yielded :=
        if allowed ≠ [] ∧ available ≠ []
        then available.filter (fun x => x.name ∈ allowed)
        else []
      let next := iterGo env rest seen2
      (s.id :: next.1,
       match next.2 with
       | .error e => .error e
       | .ok ts => .ok (yielded ++ ts))

/-- `_iterate_enabled_tools` over the configured server list, starting from
an empty `seen_tools` set. -/
def iterate_enabled_tools (env : Str → ClientConn)
    (servers : List (Str × MCPServer)) : List Str × Except ToolsErr (List Tool) :=
  iterGo env servers []

/-- Python dict assignment `d[k] = v`: overwrite in place, else append. -/
def dictInsert (d : List (Str × Tool)) (k : Str) (v : Tool) : List (Str × Tool) :=
  if d.any (fun p => p.1 = k)
  then d.map (fun p => if p.1 = k then (k, v) else p)
  else d ++ [(k, v)]

/-- The `new_tools` dict built by `initialise_tools`. -/
def buildToolsDict (ts : List Tool) : List (Str × Tool) :=
  ts.foldl (fun d t => dictInsert d t.name t) []

/-- `initialise_tools` from `tools.py`: a no-op once `_initialised` is set;
otherwise consume `_iterate_enabled_tools` into `new_tools` and only on
success install the dict and set the flag — an exception propagates before
either assignment.  Returns the new state, the server ids contacted, and the
raised exception if any. -/
def initialise_tools (env : Str → ClientConn) (servers : List (Str × MCPServer))
    (st : ToolRegistry) : ToolRegistry × List Str × Option ToolsErr :=
  if st.initialised then (st, [], none)
  else
    let r := iterate_enabled_tools env servers
    match r.2 with
    | .error e => (st, r.1, some e)
    | .ok ts => ({ tools := buildToolsDict ts, initialised := true }, r.1, none)

/-- `get_enabled_tools` from `tools.py`. -/
def get_enabled_tools (st : ToolRegistry) : Except ToolsErr (List Tool) :=
  if ¬ st.initialised then .error .runtimeNotInitialised
  else .ok (st.tools.map (fun p => p.2))

/-- `_get_tool` from `tools.py`: `self.tools.get(name, None)`. -/
def get_tool (st : ToolRegistry) (name : Str) : Option Tool :=
  match st.tools.find? (fun p => p.1 = name) with
  | some p => some p.2
  | none => none

/-- Python `result or ""` on a string: the falsy empty string is coerced to
`""`; everything else passes through. -/
def pyOrEmpty (s : Str) : Str :=
  if s = [] then [] else s

/-- `execute_tool` from `tools.py`: raise `RuntimeError` before
initialisation, raise `ValueError` for an unknown name, otherwise run the
tool on its server's cached client and return `result or ""`. -/
def execute_tool (env : Str → ClientConn) (st : ToolRegistry)
    (tool_name : Str) (params : JsonV) : Except ToolsErr Str :=
  if ¬ st.initialised then .error .runtimeNotInitialised
  else
    match get_tool st tool_name with
    | none => .error (.valueUnknownTool tool_name)
    | some tool =>
      match run_tool (env tool.server.id) tool.name params with
      | .ok r => .ok (pyOrEmpty r)
      | .error e => .error (.mcp e)

/-! ## Claim C4: tool execution failure handling -/

/-- A configured network tool server allowing `"search"`. -/
def c4Server : MCPServer := .url "http://tools.example".data ["search".data]

/-- The registered `"search"` tool owned by `c4Server`. -/
def c4Tool : Tool :=
  { name := "search".data, description := [], function_name := "search".data,
    parameters := ⟨[]⟩, server := c4Server, enabled := true }

/-- An initialised registry with the `"search"` tool registered. -/
def c4Registry : ToolRegistry :=
  { tools := [("search".data, c4Tool)], initialised := true }

/-- A client environment whose every operation fails with a network error. -/
def c4EnvNetFail : Str → ClientConn := fun _ =>
  { connect := .error .httpErr, listTools := .error .httpErr,
    callTool := fun _ _ => .error .httpErr }

/-- Claim C4 counterexample: `_run_tool` catches only `ProcessLookupError`,
so a network error (`httpx.HTTPError`) during execution propagates out of
`execute_tool` instead of being swallowed into an empty-string result. -/
theorem c4_counterexample :
    execute_tool c4EnvNetFail c4Registry "search".data ⟨[]⟩
        = .error (.mcp .httpErr) ∧
      execute_tool c4EnvNetFail c4Registry "search".data ⟨[]⟩ ≠ .ok [] := by
  constructor
  · rfl
  · decide

/-- Claim C4 (amended): `execute_tool` on a registered tool whose server
connection or invocation fails with a process error (`ProcessLookupError`)
returns the empty string rather than raising, so the agent loop can still
append a paired call/result message with empty result; other network errors
propagate as exceptions. -/
theorem c4_process_error_amended (env : Str → ClientConn) (st : ToolRegistry)
    (name : Str) (params : JsonV) (tool : Tool)
    (hinit : st.initialised = true)
    (hfound : get_tool st name = some tool)
    (hrun : runToolBody (env tool.server.id) tool.name params
      = .error .processLookup) :
    execute_tool env st name params = .ok [] := by
  simp [execute_tool, hinit, hfound, run_tool, hrun, pyOrEmpty]

/-- A client environment where the process behind the server has died: every
call raises `ProcessLookupError`. -/
def c4EnvProcFail : Str → ClientConn := fun _ =>
  { connect := .error .processLookup, listTools := .error .processLookup,
    callTool := fun _ _ => .error .processLookup }

theorem c4_process_error_amended_witness :
    c4Registry.initialised = true ∧
    get_tool c4Registry "search".data = some c4Tool ∧
    runToolBody (c4EnvProcFail c4Tool.server.id) c4Tool.name ⟨[]⟩
      = .error .processLookup ∧
    execute_tool c4EnvProcFail c4Registry "search".data ⟨[]⟩ = .ok [] :=
  ⟨rfl, rfl, rfl,
    c4_process_error_amended c4EnvProcFail c4Registry "search".data ⟨[]⟩ c4Tool
      rfl rfl rfl⟩

/-! ## Claim C10: `execute_tool` error modes -/

/-- Claim C10: `execute_tool` raises `RuntimeError` when called before
`initialise_tools`, raises `ValueError("Unknown tool: ...")` for a name not
in the registered-tools map (rather than returning an empty result), and on
the success path returns `result or ""` — never `None`, with a falsy result
coerced to the empty string.  It reads but never writes the registry state
(its model takes the state and returns only a result). -/
theorem c10_execute_tool_errors (env : Str → ClientConn) (st : ToolRegistry)
    (name : Str) (params : JsonV) :
    (st.initialised = false →
      execute_tool env st name params = .error .runtimeNotInitialised) ∧
    (st.initialised = true → get_tool st name = none →
      execute_tool env st name params = .error (.valueUnknownTool name)) ∧
    (∀ tool r, st.initialised = true → get_tool st name = some tool →
      run_tool (env tool.server.id) tool.name params = .ok r →
      execute_tool env st name params = .ok (pyOrEmpty r)) ∧
    (∀ s : Str, s ≠ [] → pyOrEmpty s = s) ∧ pyOrEmpty [] = [] := by
  refine ⟨?_, ?_, ?_, ?_, rfl⟩
  · intro h
    simp [execute_tool, h]
  · intro h1 h2
    simp [execute_tool, h1, h2]
  · intro tool r h1 h2 h3
    simp [execute_tool, h1, h2, h3]
  · intro s hs
    simp [pyOrEmpty, hs]

/-- A client environment where the `"search"` call succeeds with one text
segment and one non-text segment. -/
def c10EnvOk : Str → ClientConn := fun _ =>
  { connect := .ok (),
    listTools := .ok [{ name := "search".data,
                        description := none,
                        inputSchema := ⟨[]⟩ }],
    callTool := fun _ _ => .ok [{ stype := "text".data, text := "hit".data },
                                { stype := "image".data, text := "ignored".data }] }

theorem c10_execute_tool_errors_witness :
    (({ tools := [], initialised := false } : ToolRegistry).initialised = false ∧
      execute_tool c10EnvOk { tools := [], initialised := false } "search".data ⟨[]⟩
        = .error .runtimeNotInitialised) ∧
    (c4Registry.initialised = true ∧ get_tool c4Registry "missing".data = none ∧
      execute_tool c10EnvOk c4Registry "missing".data ⟨[]⟩
        = .error (.valueUnknownTool "missing".data)) ∧
    (run_tool (c10EnvOk c4Tool.server.id) c4Tool.name ⟨[]⟩ = .ok "hit".data ∧
      execute_tool c10EnvOk c4Registry "search".data ⟨[]⟩
        = .ok (pyOrEmpty "hit".data)) ∧
    ("x".data ≠ ([] : Str) ∧ pyOrEmpty "x".data = "x".data) :=
  ⟨⟨rfl, (c10_execute_tool_errors c10EnvOk
      { tools := [], initialised := false } "search".data ⟨[]⟩).1 rfl⟩,
   ⟨rfl, rfl, (c10_execute_tool_errors c10EnvOk c4Registry
      "missing".data ⟨[]⟩).2.1 rfl rfl⟩,
   ⟨by decide, (c10_execute_tool_errors c10EnvOk c4Registry
      "search".data ⟨[]⟩).2.2.1 c4Tool "hit".data rfl rfl (by decide)⟩,
   ⟨by decide, (c10_execute_tool_errors c10EnvOk c4Registry
      "search".data ⟨[]⟩).2.2.2.1 "x".data (by decide)⟩⟩

/-! ## Claims C5 and C6: `initialise_tools` -/

theorem checkDupNames_error_shape :
    ∀ (names seen : List Str) (e : ToolsErr),
      checkDupNames seen names = .error e → ∃ m, e = .valueDuplicate m := by
  intro names
  induction names with
  | nil => intro seen e h; simp [checkDupNames] at h
  | cons n ns ih =>
    intro seen e h
    by_cases hn : n ∈ seen
    · simp only [checkDupNames, if_pos hn, Except.error.injEq] at h
      exact ⟨n, h.symm⟩
    · simp only [checkDupNames, if_neg hn] at h
      exact ih (n :: seen) e h

theorem checkDupNames_error_of_mem :
    ∀ (names seen : List Str) (n : Str), n ∈ seen → n ∈ names →
      ∃ m, checkDupNames seen names = .error (.valueDuplicate m) := by
  intro names
  induction names with
  | nil => intro seen n _ hmem; simp at hmem
  | cons n1 ns ih =>
    intro seen n hseen hmem
    by_cases hn1 : n1 ∈ seen
    · exact ⟨n1, by simp [checkDupNames, if_pos hn1]⟩
    · have hne : n ≠ n1 := fun h => hn1 (h ▸ hseen)
      have hns : n ∈ ns := by
        rcases List.mem_cons.mp hmem with h | h
        · exact absurd h hne
        · exact h
      obtain ⟨m, hm⟩ := ih (n1 :: seen) n (by simp [hseen]) hns
      exact ⟨m, by simp [checkDupNames, if_neg hn1, hm]⟩

theorem checkDupNames_ok_mem :
    ∀ (names seen seen2 : List Str) (x : Str),
      checkDupNames seen names = .ok seen2 → (x ∈ seen ∨ x ∈ names) → x ∈ seen2 := by
  intro names
  induction names with
  | nil =>
    intro seen seen2 x h hmem
    simp only [checkDupNames, Except.ok.injEq] at h
    subst h
    rcases hmem with h | h
    · exact h
    · simp at h
  | cons n1 ns ih =>
    intro seen seen2 x h hmem
    by_cases hn1 : n1 ∈ seen
    · simp [checkDupNames, if_pos hn1] at h
    · simp only [checkDupNames, if_neg hn1] at h
      apply ih (n1 :: seen) seen2 x h
      rcases hmem with hx | hx
      · exact Or.inl (by simp [hx])
      · rcases List.mem_cons.mp hx with hx2 | hx2
        · exact Or.inl (by simp [hx2])
        · exact Or.inr hx2

theorem iterGo_error_of_seen (env : Str → ClientConn) :
    ∀ (rest : List (Str × MCPServer)) (seen : List Str) (n : Str)
      (k : Str) (s : MCPServer),
      n ∈ seen → (k, s) ∈ rest →
      n ∈ (get_available_tools env s).map (fun t => t.name) →
      ∃ cs m, iterGo env rest seen = (cs, .error (.valueDuplicate m)) := by
  intro rest
  induction rest with
  | nil => intro seen n k s _ hmem _; simp at hmem
  | cons hd tl ih =>
    intro seen n k s hseen hmem hadv
    obtain ⟨ka, sa⟩ := hd
    cases hcd : checkDupNames seen ((get_available_tools env sa).map (fun t => t.name)) with
    | error e =>
      obtain ⟨m, hm⟩ := checkDupNames_error_shape _ _ _ hcd
      subst hm
      exact ⟨[sa.id], m, by simp [iterGo, hcd]⟩
    | ok seen2 =>
      rcases List.mem_cons.mp hmem with hhd | htl
      · have hsa : s = sa := (Prod.mk.injEq _ _ _ _ ▸ hhd).2
        subst hsa
        obtain ⟨m, hm⟩ := checkDupNames_error_of_mem _ seen n hseen hadv
        rw [hm] at hcd
        exact absurd hcd (by simp)
      · have hseen2 : n ∈ seen2 :=
          checkDupNames_ok_mem _ seen seen2 n hcd (Or.inl hseen)
        obtain ⟨cs, m, hrec⟩ := ih seen2 n k s hseen2 htl hadv
        exact ⟨sa.id :: cs, m, by simp [iterGo, hcd, hrec]⟩

theorem iterGo_error_dup (env : Str → ClientConn)
    (k1 k2 : Str) (s1 s2 : MCPServer) (l2 l3 : List (Str × MCPServer)) (n : Str)
    (hadv1 : n ∈ (get_available_tools env s1).map (fun t => t.name))
    (hadv2 : n ∈ (get_available_tools env s2).map (fun t => t.name)) :
    ∀ (l1 : List (Str × MCPServer)) (seen : List Str),
      ∃ cs m, iterGo env (l1 ++ (k1, s1) :: l2 ++ (k2, s2) :: l3) seen
        = (cs, .error (.valueDuplicate m)) := by
  intro l1
  induction l1 with
  | nil =>
    intro seen
    cases hcd : checkDupNames seen ((get_available_tools env s1).map (fun t => t.name)) with
    | error e =>
      obtain ⟨m, hm⟩ := checkDupNames_error_shape _ _ _ hcd
      subst hm
      exact ⟨[s1.id], m, by simp [iterGo, hcd]⟩
    | ok seen2 =>
      have hseen2 : n ∈ seen2 :=
        checkDupNames_ok_mem _ seen seen2 n hcd (Or.inr hadv1)
      obtain ⟨cs, m, hrec⟩ :=
        iterGo_error_of_seen env (l2 ++ (k2, s2) :: l3) seen2 n k2 s2 hseen2
          (by simp) hadv2
      exact ⟨s1.id :: cs, m, by simp [iterGo, hcd, hrec]⟩
  | cons hd tl ih =>
    intro seen
    obtain ⟨ka, sa⟩ := hd
    cases hcd : checkDupNames seen ((get_available_tools env sa).map (fun t => t.name)) with
    | error e =>
      obtain ⟨m, hm⟩ := checkDupNames_error_shape _ _ _ hcd
      subst hm
      exact ⟨[sa.id], m, by simp [iterGo, hcd]⟩
    | ok seen2 =>
      obtain ⟨cs, m, hrec⟩ := ih seen2
      refine ⟨sa.id :: cs, m, ?_⟩
      simp only [List.append_assoc, List.cons_append] at hrec
      simp only [iterGo, hcd, List.append_eq, List.append_assoc, List.cons_append]
      rw [hrec]

/-- Claim C5: if two configured tool-servers both advertise and allow a tool
with the same name, `initialise_tools` raises a duplicate-tool-name
`ValueError`, the registry state is unchanged (tools map untouched,
`_initialised` still false), and a subsequent `get_enabled_tools` call raises
the "not initialised" `RuntimeError`. -/
theorem c5_duplicate_tool_name (env : Str → ClientConn)
    (servers : List (Str × MCPServer)) (st0 : ToolRegistry)
    (k1 k2 : Str) (s1 s2 : MCPServer)
    (l1 l2 l3 : List (Str × MCPServer)) (n : Str)
    (hsplit : servers = l1 ++ (k1, s1) :: l2 ++ (k2, s2) :: l3)
    (hadv1 : n ∈ (get_available_tools env s1).map (fun t => t.name))
    (hadv2 : n ∈ (get_available_tools env s2).map (fun t => t.name))
    (hallow1 : n ∈ s1.allowed_tools.map pyStrip)
    (hallow2 : n ∈ s2.allowed_tools.map pyStrip)
    (hinit : st0.initialised = false) :
    (∃ cs m, initialise_tools env servers st0
        = (st0, cs, some (.valueDuplicate m))) ∧
      get_enabled_tools st0 = .error .runtimeNotInitialised := by
  constructor
  · obtain ⟨cs, m, hiter⟩ :=
      iterGo_error_dup env k1 k2 s1 s2 l2 l3 n hadv1 hadv2 l1 []
    refine ⟨cs, m, ?_⟩
    rw [hsplit]
    simp only [List.append_assoc, List.cons_append] at hiter
    simp only [initialise_tools, hinit, Bool.false_eq_true, if_false,
      iterate_enabled_tools]
    simp only [List.append_assoc, List.cons_append]
    rw [hiter]
  · simp [get_enabled_tools, hinit]

/-- A client environment in which both configured servers advertise a tool
named `"search"`. -/
def c5Env : Str → ClientConn := fun _ =>
  { connect := .ok (),
    listTools := .ok [{ name := "search".data,
                        description := some "find things".data,
                        inputSchema := ⟨[]⟩ }],
    callTool := fun _ _ => .ok [] }

/-- Two distinct configured servers that both allow `"search"`. -/
def c5Servers : List (Str × MCPServer) :=
  [("a".data, .url "http://a.example".data ["search".data]),
   ("b".data, .url "http://b.example".data ["search".data])]

theorem c5_duplicate_tool_name_witness :
    (∃ cs m, initialise_tools c5Env c5Servers { tools := [], initialised := false }
        = ({ tools := [], initialised := false }, cs, some (.valueDuplicate m))) ∧
      get_enabled_tools { tools := [], initialised := false }
        = .error .runtimeNotInitialised :=
  c5_duplicate_tool_name c5Env c5Servers { tools := [], initialised := false }
    "a".data "b".data (.url "http://a.example".data ["search".data])
    (.url "http://b.example".data ["search".data]) [] [] [] "search".data
    (by decide) (by decide) (by decide) (by decide) (by decide) rfl

theorem initialise_tools_success_flag (env : Str → ClientConn)
    (servers : List (Str × MCPServer)) (st st1 : ToolRegistry) (cs : List Str)
    (h : initialise_tools env servers st = (st1, cs, none)) :
    st1.initialised = true := by
  by_cases hst : st.initialised
  · simp only [initialise_tools, if_pos hst, Prod.mk.injEq] at h
    rw [← h.1]
    exact hst
  · simp only [initialise_tools, if_neg hst] at h
    cases hr : (iterate_enabled_tools env servers).2 with
    | error e => rw [hr] at h; simp at h
    | ok ts =>
      rw [hr] at h
      simp only [Prod.mk.injEq] at h
      rw [← h.1]

/-- Claim C6: `initialise_tools` is idempotent — once a call has completed
successfully (returning without an exception), every subsequent call, with
any configuration and any client environment, is a no-op: the registry state
(tools map and flag) is unchanged, no tool server is contacted, and no
exception is raised. -/
theorem c6_initialise_idempotent (env1 env2 : Str → ClientConn)
    (servers1 servers2 : List (Str × MCPServer)) (st st1 : ToolRegistry)
    (cs : List Str) :
    (st.initialised = true → initialise_tools env1 servers1 st = (st, [], none)) ∧
    (initialise_tools env1 servers1 st = (st1, cs, none) →
      initialise_tools env2 servers2 st1 = (st1, [], none)) := by
  constructor
  · intro h
    simp [initialise_tools, h]
  · intro h
    have hflag : st1.initialised = true :=
      initialise_tools_success_flag env1 servers1 st st1 cs h
    simp [initialise_tools, hflag]

/-- One configured server advertising and allowing a single tool. -/
def c6Servers : List (Str × MCPServer) :=
  [("a".data, .url "http://a.example".data ["search".data])]

theorem c6_initialise_idempotent_witness :
    ({ tools := [("search".data,
        { name := "search".data, description := "find things".data,
          function_name := "search".data, parameters := ⟨[]⟩,
          server := .url "http://a.example".data ["search".data],
          enabled := true })], initialised := true } : ToolRegistry).initialised
        = true ∧
    initialise_tools c5Env c6Servers
        { tools := [("search".data,
          { name := "search".data, description := "find things".data,
            function_name := "search".data, parameters := ⟨[]⟩,
            server := .url "http://a.example".data ["search".data],
            enabled := true })], initialised := true }
      = ({ tools := [("search".data,
          { name := "search".data, description := "find things".data,
            function_name := "search".data, parameters := ⟨[]⟩,
            server := .url "http://a.example".data ["search".data],
            enabled := true })], initialised := true }, [], none) :=
  ⟨rfl,
    (c6_initialise_idempotent c5Env c5Env c6Servers c6Servers
      { tools := [("search".data,
        { name := "search".data, description := "find things".data,
          function_name := "search".data, parameters := ⟨[]⟩,
          server := .url "http://a.example".data ["search".data],
          enabled := true })], initialised := true }
      { tools := [], initialised := false } []).1 rfl⟩

/-! ## `chatgateway/openai.py` and `chatgateway/watsonx.py`: stream
translation -/

/-- One choice of an OpenAI `ChatCompletionChunk`. -/
structure OpenAIChoice where
  delta_content : Option Str
  finish_reason : Option Str
deriving DecidableEq, Repr

/-- Python `IndexError`, raised by `event.choices[0]` on an empty list. -/
inductive OaiErr
  | indexError
deriving DecidableEq, Repr

/-- The `match event.choices[0].finish_reason` block of `OpenAIAdaptor.chat`:
`"stop"` and `"length"` map to their enum values, `None` stays absent, and
anything else becomes `Other`. -/
def openaiFinishOf (r : Option Str) : Option FinishReason :=
  match r with
  | some s =>
    if s = "stop".data then some .Stop
    else if s = "length".data then some .Length
    else some .Other
  | none => none

/-- The per-event translation of `OpenAIAdaptor.chat`: join the truthy delta
contents of all choices, map the first choice's finish reason, and emit one
chunk with no token counts and no tool call. -/
def openaiChunkOfEvent (choices : List OpenAIChoice) : Except OaiErr MessageChunk :=
  match choices with
  | [] => .error .indexError
  | c0 :: _ =>
    .ok { content := (choices.filterMap (fun x =>
            match x.delta_content with
            | some s => if s ≠ [] then some s else none
            | none => none)).flatten,
          input_tokens := none, output_tokens := none,
          finish_reason := openaiFinishOf c0.finish_reason,
          tool_call := none }

/-- The full OpenAI stream translation: one chunk per provider event, in
arrival order. -/
def openaiChat (events : List (List OpenAIChoice)) : Except OaiErr (List MessageChunk) :=
  events.mapM openaiChunkOfEvent

/-- One choice of a watsonx stream chunk. -/
structure WxChoice where
  delta_content : Option Str
  finish_reason : Option Str
deriving DecidableEq, Repr

/-- One watsonx stream chunk: a possibly-absent/empty `choices` list and a
possibly-absent `usage` block carrying `total_tokens`. -/
structure WxEvent where
  choices : List WxChoice
  usage_total_tokens : Option Nat
deriving DecidableEq, Repr

/-- The `match ch[0]["finish_reason"]` block of `WatsonxAdaptor.chat`. -/
def wxFinishOf (r : Option Str) : Option FinishReason :=
  match r with
  | some s =>
    if s = "stop".data then some .Stop
    else if s = "length".data then some .Length
    else some .Other
  | none => none

/-- The per-event translation of `WatsonxAdaptor.chat`: a falsy `choices`
leaves content empty and the finish reason absent; a truthy `usage` sets
`input_tokens` from `total_tokens` and `output_tokens` to 0. -/
def watsonxChunkOfEvent (e : WxEvent) : MessageChunk :=
  { content :=
      match e.choices with
      | [] => []
      | c0 :: _ => c0.delta_content.getD [],
    input_tokens := e.usage_total_tokens,
    output_tokens :=
      match e.usage_total_tokens with
      | some _ => some 0
      | none => none,
    finish_reason :=
      match e.choices with
      | [] => none
      | c0 :: _ => wxFinishOf c0.finish_reason,
    tool_call := none }

/-- The full watsonx stream translation. -/
def watsonxChat (events : List WxEvent) : List MessageChunk :=
  events.map watsonxChunkOfEvent

/-! ## `chatgateway/anthropic.py`: the streaming state machine -/

/-- The Anthropic stream events distinguished by `AnthropicAdaptor.chat`
(content-block-start events carry their block type; delta events carry their
delta type). -/
inductive AnthEvent
  | messageStart (inputTokens : Nat)
  | contentBlockStartText
  | contentBlockStartTool (id : Str) (name : Str)
  | contentBlockDeltaText (text : Str)
  | contentBlockDeltaJson (fragment : Str)
  | contentBlockStop
  | messageDelta (outputTokens : Nat) (stopReason : Option Str)
  | messageStop
  | otherEvent
deriving DecidableEq, Repr

/-- The `StreamState` enum of `AnthropicAdaptor.chat`, together with the
`tool_call_id` / `tool_call_name` / `tool_call_input` accumulator variables
that are only meaningful in the `TOOL` state. -/
inductive AnthState
  | start
  | text
  | tool (id : Str) (name : Str) (buf : Str)
deriving DecidableEq, Repr

/-- `json.JSONDecodeError` raised by `json.loads` on malformed input. -/
inductive AnthErr
  | jsonDecodeError
deriving DecidableEq, Repr

/-- A chunk with empty content and no tool call, as yielded for every event
processed in the `START` state. -/
def emptyChunk (it ot : Option Nat) (fr : Option FinishReason) : MessageChunk :=
  { content := [], input_tokens := it, output_tokens := ot,
    finish_reason := fr, tool_call := none }

/-- One iteration of the event loop in `AnthropicAdaptor.chat`: the state
transition and the chunks yielded for this event.  In `START` every event
yields exactly one (possibly empty) chunk; in `TEXT` only text deltas yield;
in `TOOL` the partial-JSON fragments are buffered without yielding, and the
block-stop event parses the buffer — raising if `json.loads` fails — and
yields exactly one tool-call chunk. -/
def anthStep (parse : Str → Option JsonV) (st : AnthState) (e : AnthEvent) :
    Except AnthErr (AnthState × List MessageChunk) :=
  match st with
  | .start =>
    match e with
    | .messageStart it => .ok (.start, [emptyChunk (some it) none none])
    | .contentBlockStartText => .ok (.text, [emptyChunk none none none])
    | .contentBlockStartTool id name =>
      .ok (.tool id name [], [emptyChunk none none none])
    | .messageDelta ot sr =>
      let fr :=
        if sr = some "max_tokens".data then FinishReason.Length
        else FinishReason.Stop
      .ok (.start, [emptyChunk none (some ot) (some fr)])
    | .messageStop => .ok (.start, [emptyChunk none none none])
    | _ => .ok (.start, [emptyChunk none none none])
  | .text =>
    match e with
    | .contentBlockDeltaText t =>
      .ok (.text, [{ content := t, input_tokens := none, output_tokens := none,
                     finish_reason := none, tool_call := none }])
    | .contentBlockStop => .ok (.start, [])
    | _ => .ok (.text, [])
  | .tool id name buf =>
    match e with
    | .contentBlockDeltaJson j => .ok (.tool id name (buf ++ j), [])
    | .contentBlockStop =>
      match parse buf with
      | some p =>
        .ok (.start, [{ content := [], input_tokens := none,
                        output_tokens := none, finish_reason := none,
                        tool_call := some { id := id, name := name,
                                            parameters := p } }])
      | none => .error .jsonDecodeError
    | _ => .ok (.tool id name buf, [])

/-- The event loop of `AnthropicAdaptor.chat` over a list of events: the
chunks yielded, in order, and the final state; an uncaught `json.loads`
error aborts the generator. -/
def anthRun (parse : Str → Option JsonV) :
    AnthState → List AnthEvent → Except AnthErr (List MessageChunk × AnthState)
  | st, [] => .ok ([], st)
  | st, e :: rest =>
    match anthStep parse st e with
    | .error err => .error err
    | .ok (st2, out) =>
      match anthRun parse st2 rest with
      | .error err => .error err
      | .ok (outs, stf) => .ok (out ++ outs, stf)

/-- `AnthropicAdaptor.chat`'s stream translation, started in `START`. -/
def anthropicChat (parse : Str → Option JsonV) (events : List AnthEvent) :
    Except AnthErr (List MessageChunk × AnthState) :=
  anthRun parse .start events

/-! ## Claim C7: finish-reason mapping -/

/-- Claim C7 counterexample: the Anthropic adaptor maps the stop reason
`"tool_use"` — which is neither a normal stop nor a length limit — to
`FinishReason.Stop`, not to `FinishReason.Other`: its `match` treats every
stop reason other than `"max_tokens"` as `Stop`. -/
theorem c7_counterexample :
    anthropicChat (fun _ => none) [AnthEvent.messageDelta 7 (some "tool_use".data)]
        = .ok ([{ content := [], input_tokens := none, output_tokens := some 7,
                  finish_reason := some FinishReason.Stop, tool_call := none }],
               AnthState.start) ∧
      (some FinishReason.Stop : Option FinishReason) ≠ some FinishReason.Other := by
  constructor
  · rfl
  · decide

/-- Claim C7 (amended): the OpenAI and watsonx adaptors map any stop reason
other than `"stop"`, `"length"`, or absent to `FinishReason.Other`; the
Anthropic adaptor instead maps `"max_tokens"` to `Length` and every other
stop reason (including unknown ones) to `Stop`, never producing `Other`. -/
theorem c7_finish_reason_amended (r : Str)
    (h1 : r ≠ "stop".data) (h2 : r ≠ "length".data)
    (sr : Str) (hsr : sr ≠ "max_tokens".data) (ot : Nat)
    (parse : Str → Option JsonV) (dc : Option Str) (cs : List OpenAIChoice)
    (ws : List WxChoice) (ut : Option Nat) :
    openaiFinishOf (some r) = some FinishReason.Other ∧
    wxFinishOf (some r) = some FinishReason.Other ∧
    openaiFinishOf none = none ∧
    wxFinishOf none = none ∧
    (openaiChunkOfEvent ({ delta_content := dc, finish_reason := some r } :: cs)).map
        (fun ch => ch.finish_reason) = .ok (some FinishReason.Other) ∧
    (watsonxChunkOfEvent
        { choices := { delta_content := dc, finish_reason := some r } :: ws,
          usage_total_tokens := ut }).finish_reason = some FinishReason.Other ∧
    anthStep parse .start (.messageDelta ot (some sr))
      = .ok (.start, [emptyChunk none (some ot) (some FinishReason.Stop)]) ∧
    anthStep parse .start (.messageDelta ot none)
      = .ok (.start, [emptyChunk none (some ot) (some FinishReason.Stop)]) ∧
    anthStep parse .start (.messageDelta ot (some "max_tokens".data))
      = .ok (.start, [emptyChunk none (some ot) (some FinishReason.Length)]) := by
  refine ⟨?_, ?_, rfl, rfl, ?_, ?_, ?_, rfl, ?_⟩
  · simp [openaiFinishOf, h1, h2]
  · simp [wxFinishOf, h1, h2]
  · simp [openaiChunkOfEvent, openaiFinishOf, h1, h2, Except.map]
  · simp [watsonxChunkOfEvent, wxFinishOf, h1, h2]
  · simp [anthStep, hsr]
  · simp [anthStep]

theorem c7_finish_reason_amended_witness :
    ("content_filter".data ≠ "stop".data ∧
      "content_filter".data ≠ "length".data ∧
      "tool_use".data ≠ "max_tokens".data) ∧
    (openaiFinishOf (some "content_filter".data) = some FinishReason.Other ∧
      wxFinishOf (some "content_filter".data) = some FinishReason.Other ∧
      openaiFinishOf none = none ∧
      wxFinishOf none = none ∧
      (openaiChunkOfEvent
          ({ delta_content := none,
             finish_reason := some "content_filter".data } :: [])).map
          (fun ch => ch.finish_reason) = .ok (some FinishReason.Other) ∧
      (watsonxChunkOfEvent
          { choices := [{ delta_content := none,
                          finish_reason := some "content_filter".data }],
            usage_total_tokens := some 9 }).finish_reason
        = some FinishReason.Other ∧
      anthStep (fun _ => none) .start (.messageDelta 3 (some "tool_use".data))
        = .ok (.start, [emptyChunk none (some 3) (some FinishReason.Stop)]) ∧
      anthStep (fun _ => none) .start (.messageDelta 3 none)
        = .ok (.start, [emptyChunk none (some 3) (some FinishReason.Stop)]) ∧
      anthStep (fun _ => none) .start
          (.messageDelta 3 (some "max_tokens".data))
        = .ok (.start, [emptyChunk none (some 3) (some FinishReason.Length)])) :=
  ⟨⟨by decide, by decide, by decide⟩,
    c7_finish_reason_amended "content_filter".data (by decide) (by decide)
      "tool_use".data (by decide) 3 (fun _ => none) none [] [] (some 9)⟩

/-! ## Claim C8: tool-call buffering in the Anthropic adaptor -/

theorem anthRun_append (parse : Str → Option JsonV) :
    ∀ (xs ys : List AnthEvent) (st : AnthState),
      anthRun parse st (xs ++ ys)
        = (anthRun parse st xs).bind
            (fun q => (anthRun parse q.2 ys).map (fun r => (q.1 ++ r.1, r.2))) := by
  intro xs
  induction xs with
  | nil =>
    intro ys st
    simp only [List.nil_append, anthRun, Except.bind]
    cases hy : anthRun parse st ys with
    | error e => simp [Except.map]
    | ok p => simp [Except.map]
  | cons ev rest ih =>
    intro ys st
    cases hstep : anthStep parse st ev with
    | error err =>
      simp [List.cons_append, anthRun, hstep, Except.bind]
    | ok p =>
      obtain ⟨st2, out⟩ := p
      simp only [List.cons_append, anthRun, hstep, List.append_eq]
      rw [ih ys st2]
      cases hr : anthRun parse st2 rest with
      | error err => simp [Except.bind]
      | ok q =>
        obtain ⟨outs, stf⟩ := q
        cases hy : anthRun parse stf ys with
        | error e2 => simp [hy, Except.bind, Except.map]
        | ok q2 =>
          obtain ⟨outs2, stf2⟩ := q2
          simp [hy, Except.bind, Except.map, List.append_assoc]

theorem anthRun_append_ok (parse : Str → Option JsonV) {xs : List AnthEvent}
    {st st2 : AnthState} {o : List MessageChunk}
    (h : anthRun parse st xs = .ok (o, st2)) (ys : List AnthEvent) :
    anthRun parse st (xs ++ ys)
      = (anthRun parse st2 ys).map (fun r => (o ++ r.1, r.2)) := by
  rw [anthRun_append parse xs ys st, h]
  rfl

theorem anthRun_append_error (parse : Str → Option JsonV) {xs : List AnthEvent}
    {st : AnthState} {e : AnthErr}
    (h : anthRun parse st xs = .error e) (ys : List AnthEvent) :
    anthRun parse st (xs ++ ys) = .error e := by
  rw [anthRun_append parse xs ys st, h]
  rfl

theorem anthRun_jsonDeltas (parse : Str → Option JsonV) :
    ∀ (frags : List Str) (id name buf : Str),
      anthRun parse (.tool id name buf) (frags.map AnthEvent.contentBlockDeltaJson)
        = .ok ([], .tool id name (buf ++ frags.flatten)) := by
  intro frags
  induction frags with
  | nil => intro id name buf; simp [anthRun]
  | cons f rest ih =>
    intro id name buf
    simp only [List.map_cons, anthRun, anthStep]
    rw [ih id name (buf ++ f)]
    simp [List.append_assoc]

/-- Claim C8: once the Anthropic adaptor is in its ground state, a tool-use
block — block start carrying the id and name, any number of partial-JSON
fragments, then block complete — contributes no content chunks while the
fragments are buffered; at block complete the adaptor emits exactly one
chunk whose `tool_call` holds the parameters parsed from the concatenated
fragments (keyed by the id and name captured at block start), and if the
accumulated JSON is malformed it raises instead, aborting the stream without
emitting a tool-call chunk.  (The block-start event itself yields one chunk
with empty content and no tool call, as every event in the `START` state
does.) -/
theorem c8_tool_block_buffering (parse : Str → Option JsonV)
    (pre : List AnthEvent) (outs : List MessageChunk) (id name : Str)
    (frags : List Str) (post : List AnthEvent)
    (hpre : anthRun parse .start pre = .ok (outs, .start)) :
    anthRun parse .start
        (pre ++ [AnthEvent.contentBlockStartTool id name]
          ++ frags.map AnthEvent.contentBlockDeltaJson
          ++ [AnthEvent.contentBlockStop] ++ post)
      = match parse frags.flatten with
        | none => .error .jsonDecodeError
        | some p =>
          match anthRun parse .start post with
          | .error e => .error e
          | .ok (outs2, stf) =>
            .ok (outs ++ [emptyChunk none none none,
              { content := [], input_tokens := none, output_tokens := none,
                finish_reason := none,
                tool_call := some { id := id, name := name,
                                    parameters := p } }] ++ outs2, stf) := by
  have hassoc : pre ++ [AnthEvent.contentBlockStartTool id name]
        ++ frags.map AnthEvent.contentBlockDeltaJson
        ++ [AnthEvent.contentBlockStop] ++ post
      = pre ++ ([AnthEvent.contentBlockStartTool id name]
        ++ (frags.map AnthEvent.contentBlockDeltaJson
          ++ ([AnthEvent.contentBlockStop] ++ post))) := by
    simp [List.append_assoc]
  rw [hassoc]
  have hA : anthRun parse .start [AnthEvent.contentBlockStartTool id name]
      = .ok ([emptyChunk none none none], .tool id name []) := by
    simp [anthRun, anthStep, emptyChunk]
  have hF : anthRun parse (.tool id name [])
        (frags.map AnthEvent.contentBlockDeltaJson)
      = .ok ([], .tool id name ([] ++ frags.flatten)) :=
    anthRun_jsonDeltas parse frags id name []
  cases hparse : parse frags.flatten with
  | none =>
    have hC : anthRun parse (.tool id name ([] ++ frags.flatten))
          ([AnthEvent.contentBlockStop] ++ post) = .error .jsonDecodeError := by
      simp [anthRun, anthStep, hparse]
    have hFC : anthRun parse (.tool id name [])
          (frags.map AnthEvent.contentBlockDeltaJson
            ++ ([AnthEvent.contentBlockStop] ++ post))
        = .error .jsonDecodeError := by
      rw [anthRun_append_ok parse hF ([AnthEvent.contentBlockStop] ++ post), hC]
      rfl
    have hAFC : anthRun parse .start
          ([AnthEvent.contentBlockStartTool id name]
            ++ (frags.map AnthEvent.contentBlockDeltaJson
              ++ ([AnthEvent.contentBlockStop] ++ post)))
        = .error .jsonDecodeError := by
      rw [anthRun_append_ok parse hA
        (frags.map AnthEvent.contentBlockDeltaJson
          ++ ([AnthEvent.contentBlockStop] ++ post)), hFC]
      rfl
    rw [anthRun_append_ok parse hpre
      ([AnthEvent.contentBlockStartTool id name]
        ++ (frags.map AnthEvent.contentBlockDeltaJson
          ++ ([AnthEvent.contentBlockStop] ++ post))), hAFC]
    rfl
  | some p =>
    cases hpost : anthRun parse .start post with
    | error e =>
      have hC : anthRun parse (.tool id name ([] ++ frags.flatten))
            ([AnthEvent.contentBlockStop] ++ post) = .error e := by
        simp [anthRun, anthStep, hparse, hpost]
      have hFC : anthRun parse (.tool id name [])
            (frags.map AnthEvent.contentBlockDeltaJson
              ++ ([AnthEvent.contentBlockStop] ++ post))
          = .error e := by
        rw [anthRun_append_ok parse hF ([AnthEvent.contentBlockStop] ++ post), hC]
        rfl
      have hAFC : anthRun parse .start
            ([AnthEvent.contentBlockStartTool id name]
              ++ (frags.map AnthEvent.contentBlockDeltaJson
                ++ ([AnthEvent.contentBlockStop] ++ post)))
          = .error e := by
        rw [anthRun_append_ok parse hA
          (frags.map AnthEvent.contentBlockDeltaJson
            ++ ([AnthEvent.contentBlockStop] ++ post)), hFC]
        rfl
      rw [anthRun_append_ok parse hpre
        ([AnthEvent.contentBlockStartTool id name]
          ++ (frags.map AnthEvent.contentBlockDeltaJson
            ++ ([AnthEvent.contentBlockStop] ++ post))), hAFC]
      rfl
    | ok q =>
      obtain ⟨outs2, stf⟩ := q
      have hC : anthRun parse (.tool id name ([] ++ frags.flatten))
            ([AnthEvent.contentBlockStop] ++ post)
          = .ok ({ content := [], input_tokens := none, output_tokens := none,
                   finish_reason := none,
                   tool_call := some { id := id, name := name,
                                       parameters := p } } :: outs2, stf) := by
        simp [anthRun, anthStep, hparse, hpost]
      have hFC : anthRun parse (.tool id name [])
            (frags.map AnthEvent.contentBlockDeltaJson
              ++ ([AnthEvent.contentBlockStop] ++ post))
          = .ok ({ content := [], input_tokens := none, output_tokens := none,
                   finish_reason := none,
                   tool_call := some { id := id, name := name,
                                       parameters := p } } :: outs2, stf) := by
        rw [anthRun_append_ok parse hF ([AnthEvent.contentBlockStop] ++ post), hC]
        rfl
      have hAFC : anthRun parse .start
            ([AnthEvent.contentBlockStartTool id name]
              ++ (frags.map AnthEvent.contentBlockDeltaJson
                ++ ([AnthEvent.contentBlockStop] ++ post)))
          = .ok (emptyChunk none none none ::
              { content := [], input_tokens := none, output_tokens := none,
                finish_reason := none,
                tool_call := some { id := id, name := name,
                                    parameters := p } } :: outs2, stf) := by
        rw [anthRun_append_ok parse hA
          (frags.map AnthEvent.contentBlockDeltaJson
            ++ ([AnthEvent.contentBlockStop] ++ post)), hFC]
        rfl
      rw [anthRun_append_ok parse hpre
        ([AnthEvent.contentBlockStartTool id name]
          ++ (frags.map AnthEvent.contentBlockDeltaJson
            ++ ([AnthEvent.contentBlockStop] ++ post))), hAFC]
      simp [Except.map, List.append_assoc]

theorem c8_tool_block_buffering_witness :
    anthRun (fun s => some ⟨s⟩) .start [AnthEvent.messageStart 5]
        = .ok ([emptyChunk (some 5) none none], .start) ∧
    anthRun (fun s => some ⟨s⟩) .start
        ([AnthEvent.messageStart 5]
          ++ [AnthEvent.contentBlockStartTool "t1".data "add".data]
          ++ ["ab".data, "cd".data].map AnthEvent.contentBlockDeltaJson
          ++ [AnthEvent.contentBlockStop] ++ [AnthEvent.messageStop])
      = match (fun (s : Str) => some (JsonV.mk s)) ["ab".data, "cd".data].flatten with
        | none => .error .jsonDecodeError
        | some p =>
          match anthRun (fun s => some ⟨s⟩) .start [AnthEvent.messageStop] with
          | .error e => .error e
          | .ok (outs2, stf) =>
            .ok ([emptyChunk (some 5) none none]
              ++ [emptyChunk none none none,
                { content := [], input_tokens := none, output_tokens := none,
                  finish_reason := none,
                  tool_call := some { id := "t1".data, name := "add".data,
                                      parameters := p } }] ++ outs2, stf) :=
  ⟨by decide,
    c8_tool_block_buffering (fun s => some ⟨s⟩) [AnthEvent.messageStart 5]
      [emptyChunk (some 5) none none] "t1".data "add".data
      ["ab".data, "cd".data] [AnthEvent.messageStop] (by decide)⟩

/-! ## `chatgateway/common.py` and the Anthropic message projection -/

/-- A `{role, content}` dict as produced by `prepare_messages_for_model`. -/
structure RoleContent where
  role : Str
  content : Str
deriving DecidableEq, Repr

/-- The `.message` field of the plain-text message classes. -/
def messageText : Message → Str
  | .systemMessage t => t
  | .userMessage t => t
  | .assistantMessage t => t
  | _ => []

/-- `isinstance(m, SystemMessage)`. -/
def isSystem : Message → Bool
  | .systemMessage _ => true
  | _ => false

/-- `isinstance(m, IncludedFile)`. -/
def isFile : Message → Bool
  | .includedFile _ _ _ => true
  | _ => false

/-- `isinstance(m, AssistantMessage) or isinstance(m, UserMessage)`. -/
def isChat : Message → Bool
  | .assistantMessage _ => true
  | .userMessage _ => true
  | _ => false

/-- The indented f-string wrapping an included file in `common.py`. -/
def filePrompt (name data : Str) : Str :=
  "\n        `".data ++ name ++ "`\n        ---\n        ".data ++ data
    ++ "\n\n        ---".data

/-- `{"role": m.role, "content": m.message}`. -/
def renderChatEntry (m : Message) : RoleContent :=
  { role := m.role, content := messageText m }

/-- `{"role": m.role, "content": prompt}` for an `IncludedFile` (whose
`role` is `"user"`); other constructors are unreachable here. -/
def renderFileEntry : Message → RoleContent
  | .includedFile n _ d => { role := "user".data, content := filePrompt n d }
  | m => { role := m.role, content := [] }

/-- `prepare_messages_for_model` from `chatgateway/common.py`: all system
messages, then all included files (wrapped in the file prompt), then all
user/assistant chat messages; other message kinds are dropped. -/
def prepare_messages_for_model (msgs : List Message) : List RoleContent :=
  ((msgs.filter isSystem).map renderChatEntry)
    ++ ((msgs.filter isFile).map renderFileEntry)
    ++ ((msgs.filter isChat).map renderChatEntry)

/-- A content block of an Anthropic `MessageParam`; the base64 image data is
external file I/O and is abstracted by the image's path. -/
inductive AnthBlock
  | text (t : Str)
  | document (data : Str)
  | image (mime : Str) (path : Str)
  | toolUse (id : Str) (name : Str) (input : JsonV)
  | toolResult (tool_use_id : Str) (content : Str)
deriving DecidableEq, Repr

/-- An Anthropic `MessageParam`: a role and content blocks, each with its
`cache_control` flag. -/
structure AnthMessage where
  role : Str
  content : List (AnthBlock × Bool)
deriving DecidableEq, Repr

/-- Exceptions raised during the Anthropic projection: `BadImageFormat` for
an unrecognised extension, and the `IndexError` from `output[-1]` on an
empty output list. -/
inductive ProjErr
  | badImageFormat (ext : Str)
  | indexError
deriving DecidableEq, Repr

/-- The final path component, as `pathlib` sees it. -/
def pyLastComponent (s : Str) : Str :=
  (s.reverse.takeWhile (fun c => c ≠ '/')).reverse

/-- `pathlib.Path(s).suffix`: the final extension including the dot; empty
when there is no dot or the name is a dotfile. -/
def pySuffix (s : Str) : Str :=
  let base := pyLastComponent s
  let tail := base.reverse.takeWhile (fun c => c ≠ '.')
  if tail.length = base.length then []
  else if tail.length + 1 = base.length then []
  else '.' :: tail.reverse

/-- `_prepare_imageblockparam` from `chatgateway/anthropic.py`: classify the
MIME type from the lower-cased path suffix, raising `BadImageFormat` for
anything unrecognised.  (Reading and base64-encoding the file bytes is
external I/O, abstracted by keeping the path.) -/
def prepare_imageblockparam (path : Str) : Except ProjErr AnthBlock :=
  let s := (pySuffix path).map Char.toLower
  if s = ".png".data then .ok (.image "image/png".data path)
  else if s = ".gif".data then .ok (.image "image/gif".data path)
  else if s = ".webp".data then .ok (.image "image/webp".data path)
  else if s = ".jpg".data ∨ s = ".jpeg".data then .ok (.image "image/jpeg".data path)
  else .error (.badImageFormat s)

/-- The `match m.type` body of `AnthropicAdaptor._prepare_messages_for_model`
for one message: the `MessageParam` it contributes, or `none` (system
messages, and assistant messages with empty text, fall through to `pass`). -/
def anthRenderOne : Message → Except ProjErr (Option AnthMessage)
  | .userMessage t => .ok (some { role := "user".data, content := [(.text t, false)] })
  | .assistantMessage t =>
    if t ≠ [] then .ok (some { role := "assistant".data, content := [(.text t, false)] })
    else .ok none
  | .includedFile _ _ d =>
    .ok (some { role := "user".data, content := [(.document d, false)] })
  | .includedImage _ p =>
    (prepare_imageblockparam p).map
      (fun b => some { role := "user".data, content := [(b, false)] })
  | .toolCallMessage c =>
    .ok (some { role := "assistant".data,
                content := [(.toolUse c.id c.name c.parameters, false)] })
  | .toolResultMessage r =>
    .ok (some { role := "user".data,
                content := [(.toolResult r.id r.result, false)] })
  | .systemMessage _ => .ok none

/-- The message loop of the Anthropic projection: render each message in
conversation order, appending the non-`None` results. -/
def anthOutput : List Message → Except ProjErr (List AnthMessage)
  | [] => .ok []
  | m :: rest =>
    match anthRenderOne m with
    | .error e => .error e
    | .ok mp =>
      match anthOutput rest with
      | .error e => .error e
      | .ok out =>
        .ok ((match mp with | some x => [x] | none => []) ++ out)

/-- The prompt-caching step: `match output[-1]` raises `IndexError` on an
empty output; a final user message with a single content block gets
`cache_control` added; anything else is left alone. -/
def applyCache (output : List AnthMessage) : Except ProjErr (List AnthMessage) :=
  match output.getLast? with
  | none => .error .indexError
  | some last =>
    if last.role = "user".data then
      match last.content with
      | [c] => .ok (output.dropLast ++ [{ role := last.role, content := [(c.1, true)] }])
      | _ => .ok output
    else .ok output

/-- The joined system prompt returned separately by the Anthropic
projection. -/
def anthSystemPrompt (msgs : List Message) : Str :=
  List.intercalate "\n\n".data ((msgs.filter isSystem).map messageText)

/-- `AnthropicAdaptor._prepare_messages_for_model`: the separate system
prompt and the message list in original conversation order, after the
prompt-caching step. -/
def anthPrepare (msgs : List Message) : Except ProjErr (Str × List AnthMessage) :=
  match anthOutput msgs with
  | .error e => .error e
  | .ok out =>
    match applyCache out with
    | .error e => .error e
    | .ok out2 => .ok (anthSystemPrompt msgs, out2)

/-- The kind of a content block, for stating shape/placement properties. -/
inductive BlockKind
  | textK
  | documentK
  | imageK
  | toolUseK
  | toolResultK
deriving DecidableEq, Repr

/-- The kind of a block. -/
def blockKind : AnthBlock → BlockKind
  | .text _ => .textK
  | .document _ => .documentK
  | .image _ _ => .imageK
  | .toolUse _ _ _ => .toolUseK
  | .toolResult _ _ => .toolResultK

/-- The observable shape of a projected message: its role and the kinds of
its content blocks (ignoring the cache flag and block payloads). -/
def entryShape (m : AnthMessage) : Str × List BlockKind :=
  (m.role, m.content.map (fun p => blockKind p.1))

/-- Modelled from the spec: the shape each conversation entry contributes to
the Anthropic message list, role-preserving, with `IncludedFile` as a
user-role document block — used to compare the projection's output order
with the original conversation order. -/
def specAnthShape : Message → Option (Str × List BlockKind)
  | .systemMessage _ => none
  | .userMessage _ => some ("user".data, [.textK])
  | .assistantMessage t =>
    if t ≠ [] then some ("assistant".data, [.textK]) else none
  | .includedFile _ _ _ => some ("user".data, [.documentK])
  | .includedImage _ _ => some ("user".data, [.imageK])
  | .toolCallMessage _ => some ("assistant".data, [.toolUseK])
  | .toolResultMessage _ => some ("user".data, [.toolResultK])

/-- Whether a projected message contains a block of the given kind. -/
def entryHasKind (k : BlockKind) (m : AnthMessage) : Bool :=
  m.content.any (fun p => blockKind p.1 = k)

/-- The claim's placement property for the Anthropic output: no document
(included-file) entry appears after a text (chat-turn) entry. -/
def filesBeforeChatB : List AnthMessage → Bool
  | [] => true
  | m :: rest =>
    (if entryHasKind .textK m
     then rest.all (fun x => ¬ entryHasKind .documentK x)
     else true) && filesBeforeChatB rest

theorem prepare_imageblockparam_kind (path : Str) (b : AnthBlock)
    (h : prepare_imageblockparam path = .ok b) : blockKind b = .imageK := by
  simp only [prepare_imageblockparam] at h
  split_ifs at h <;> simp only [Except.ok.injEq] at h <;>
    rw [← h] <;> rfl

theorem anthOutput_shapes :
    ∀ (msgs : List Message) (out : List AnthMessage),
      anthOutput msgs = .ok out →
      out.map entryShape = msgs.filterMap specAnthShape := by
  intro msgs
  induction msgs with
  | nil =>
    intro out h
    simp only [anthOutput, Except.ok.injEq] at h
    subst h
    rfl
  | cons m rest ih =>
    intro out h
    cases m with
    | systemMessage t =>
      simp only [anthOutput, anthRenderOne] at h
      cases hrest : anthOutput rest with
      | error e => rw [hrest] at h; simp at h
      | ok out2 =>
        rw [hrest] at h
        simp only [Except.ok.injEq, List.nil_append] at h
        subst h
        simp only [List.filterMap_cons, specAnthShape]
        exact ih out2 hrest
    | userMessage t =>
      simp only [anthOutput, anthRenderOne] at h
      cases hrest : anthOutput rest with
      | error e => rw [hrest] at h; simp at h
      | ok out2 =>
        rw [hrest] at h
        simp only [Except.ok.injEq] at h
        subst h
        simp only [List.filterMap_cons, specAnthShape, List.map_cons,
          List.singleton_append, List.cons_append, List.nil_append]
        rw [ih out2 hrest]
        rfl
    | assistantMessage t =>
      simp only [anthOutput, anthRenderOne] at h
      by_cases ht : t ≠ []
      · rw [if_pos ht] at h
        cases hrest : anthOutput rest with
        | error e => rw [hrest] at h; simp at h
        | ok out2 =>
          rw [hrest] at h
          simp only [Except.ok.injEq] at h
          subst h
          simp only [List.filterMap_cons, specAnthShape, if_pos ht]
          rw [List.map_append, ih out2 hrest]
          rfl
      · rw [if_neg ht] at h
        cases hrest : anthOutput rest with
        | error e => rw [hrest] at h; simp at h
        | ok out2 =>
          rw [hrest] at h
          simp only [Except.ok.injEq, List.nil_append] at h
          subst h
          simp only [List.filterMap_cons, specAnthShape, if_neg ht]
          exact ih out2 hrest
    | includedFile n e d =>
      simp only [anthOutput, anthRenderOne] at h
      cases hrest : anthOutput rest with
      | error e2 => rw [hrest] at h; simp at h
      | ok out2 =>
        rw [hrest] at h
        simp only [Except.ok.injEq] at h
        subst h
        simp only [List.filterMap_cons, specAnthShape]
        rw [List.map_append, ih out2 hrest]
        rfl
    | includedImage n p =>
      simp only [anthOutput, anthRenderOne] at h
      cases himg : prepare_imageblockparam p with
      | error e2 => rw [himg] at h; simp [Except.map] at h
      | ok b =>
        rw [himg] at h
        simp only [Except.map] at h
        cases hrest : anthOutput rest with
        | error e2 => rw [hrest] at h; simp at h
        | ok out2 =>
          rw [hrest] at h
          simp only [Except.ok.injEq] at h
          subst h
          simp only [List.filterMap_cons, specAnthShape]
          rw [List.map_append, ih out2 hrest]
          have hk : blockKind b = .imageK := prepare_imageblockparam_kind p b himg
          simp [entryShape, hk]
    | toolCallMessage c =>
      simp only [anthOutput, anthRenderOne] at h
      cases hrest : anthOutput rest with
      | error e2 => rw [hrest] at h; simp at h
      | ok out2 =>
        rw [hrest] at h
        simp only [Except.ok.injEq] at h
        subst h
        simp only [List.filterMap_cons, specAnthShape]
        rw [List.map_append, ih out2 hrest]
        rfl
    | toolResultMessage r =>
      simp only [anthOutput, anthRenderOne] at h
      cases hrest : anthOutput rest with
      | error e2 => rw [hrest] at h; simp at h
      | ok out2 =>
        rw [hrest] at h
        simp only [Except.ok.injEq] at h
        subst h
        simp only [List.filterMap_cons, specAnthShape]
        rw [List.map_append, ih out2 hrest]
        rfl

theorem applyCache_shapes (out out2 : List AnthMessage)
    (h : applyCache out = .ok out2) :
    out2.map entryShape = out.map entryShape := by
  cases hl : out.getLast? with
  | none => simp [applyCache, hl] at h
  | some last =>
    obtain ⟨l1, rfl⟩ := List.getLast?_eq_some_iff.mp hl
    simp only [applyCache, hl] at h
    by_cases hr : last.role = "user".data
    · rw [if_pos hr] at h
      cases hc : last.content with
      | nil =>
        rw [hc] at h
        simp only [Except.ok.injEq] at h
        subst h
        rfl
      | cons c cs =>
        cases cs with
        | nil =>
          rw [hc] at h
          simp only [Except.ok.injEq] at h
          subst h
          rw [List.dropLast_concat]
          simp only [List.map_append, List.map_cons, List.map_nil]
          have : entryShape { role := last.role, content := [(c.1, true)] }
              = entryShape last := by
            simp [entryShape, hc]
          rw [this]
        | cons c2 cs2 =>
          rw [hc] at h
          simp only [Except.ok.injEq] at h
          subst h
          rfl
    · rw [if_neg hr] at h
      simp only [Except.ok.injEq] at h
      subst h
      rfl

/-- Claim C9 (amended): the shared projection preserves roles and orders its
output as all system messages, then all included files as user-role text
blocks, then all user/assistant chat messages.  The Anthropic projection
does not reorder: apart from extracting system content into the separate
system argument, it renders each entry in its original conversation position
— role-preserving, with every `IncludedFile` as a user-role document block —
so an included file is not in general placed before the chat turns. -/
theorem c9_projection_amended (msgs : List Message) :
    ((prepare_messages_for_model msgs).map (fun e => e.role)
        = ((msgs.filter isSystem).map (fun _ => "system".data))
          ++ ((msgs.filter isFile).map (fun _ => "user".data))
          ++ ((msgs.filter isChat).map Message.role)) ∧
    (prepare_messages_for_model msgs
        = ((msgs.filter isSystem).map renderChatEntry)
          ++ ((msgs.filter isFile).map renderFileEntry)
          ++ ((msgs.filter isChat).map renderChatEntry)) ∧
    (∀ (sp : Str) (out : List AnthMessage), anthPrepare msgs = .ok (sp, out) →
      out.map entryShape = msgs.filterMap specAnthShape) := by
  refine ⟨?_, rfl, ?_⟩
  · simp only [prepare_messages_for_model, List.map_append, List.map_map]
    have h1 : List.map ((fun e => e.role) ∘ renderChatEntry) (List.filter isSystem msgs)
        = List.map (fun _ => "system".data) (List.filter isSystem msgs) := by
      apply List.map_congr_left
      intro m hm
      have hs : isSystem m = true := (List.mem_filter.mp hm).2
      cases m <;> simp [isSystem] at hs <;> rfl
    have h2 : List.map ((fun e => e.role) ∘ renderFileEntry) (List.filter isFile msgs)
        = List.map (fun _ => "user".data) (List.filter isFile msgs) := by
      apply List.map_congr_left
      intro m hm
      have hf : isFile m = true := (List.mem_filter.mp hm).2
      cases m <;> simp [isFile] at hf <;> rfl
    have h3 : List.map ((fun e => e.role) ∘ renderChatEntry) (List.filter isChat msgs)
        = List.map Message.role (List.filter isChat msgs) := by
      apply List.map_congr_left
      intro m _
      rfl
    rw [h1, h2, h3]
  · intro sp out h
    cases ho : anthOutput msgs with
    | error e => simp [anthPrepare, ho] at h
    | ok out1 =>
      simp only [anthPrepare, ho] at h
      cases hc : applyCache out1 with
      | error e => rw [hc] at h; simp at h
      | ok out2 =>
        rw [hc] at h
        simp only [Except.ok.injEq, Prod.mk.injEq] at h
        rw [← h.2, applyCache_shapes out1 out2 hc]
        exact anthOutput_shapes msgs out1 ho

/-- A conversation in which a file is attached after the first user turn. -/
def c9CexMsgs : List Message :=
  [.systemMessage "s".data, .userMessage "a".data,
   .includedFile "notes".data "md".data "data".data, .userMessage "b".data]

/-- Claim C9 counterexample: the Anthropic projection keeps the included
file at its original position — after the chat turn `"a"` — so the file's
document block is not positioned before the chat turns, violating the
claimed placement.  (The final user entry gains `cache_control`.) -/
theorem c9_counterexample :
    anthPrepare c9CexMsgs
        = .ok ("s".data,
          [{ role := "user".data, content := [(.text "a".data, false)] },
           { role := "user".data, content := [(.document "data".data, false)] },
           { role := "user".data, content := [(.text "b".data, true)] }]) ∧
      filesBeforeChatB
          [{ role := "user".data, content := [(.text "a".data, false)] },
           { role := "user".data, content := [(.document "data".data, false)] },
           { role := "user".data, content := [(.text "b".data, true)] }]
        = false := by
  constructor
  · rfl
  · rfl

theorem c9_projection_amended_witness :
    anthPrepare c9CexMsgs
        = .ok ("s".data,
          [{ role := "user".data, content := [(.text "a".data, false)] },
           { role := "user".data, content := [(.document "data".data, false)] },
           { role := "user".data, content := [(.text "b".data, true)] }]) ∧
      ([{ role := "user".data, content := [(.text "a".data, false)] },
        { role := "user".data, content := [(.document "data".data, false)] },
        { role := "user".data, content := [(.text "b".data, true)] }]
          : List AnthMessage).map entryShape
        = c9CexMsgs.filterMap specAnthShape :=
  ⟨by decide,
    (c9_projection_amended c9CexMsgs).2.2 "s".data
      [{ role := "user".data, content := [(.text "a".data, false)] },
       { role := "user".data, content := [(.document "data".data, false)] },
       { role := "user".data, content := [(.text "b".data, true)] }]
      (by decide)⟩

end Rapport
